import Mathlib

/-!
# Ubidots Particle client: payload building and transmission

A shallow embedding of `src/src/UbiProtocolHandler.cpp` (the protocol handler:
reading buffer, delimited-text and JSON serializers, `send`, `get`) and of
`src/firmware/Ubidots.cpp` (the legacy client: `add`, `sendAll`,
`getValueWithDatasource`), followed by theorems about them.

Conventions of the embedding.

* `sprintf(payload, "%s...", payload, ...)` is the append idiom of the source and
  is read as string concatenation onto `payload`.
* `char*` arguments that the source tests against `NULL` are `Option String`;
  the others are `String`.
* The float type is a type parameter `F`; the `%f` conversion of `printf` and
  `String::toFloat` are parameters (`fmt`, `toFloat`), since neither belongs to
  the repository.
* The constants of `UbiConstants.h` (not part of the sources at hand) are the
  fields of `UbiConstants`.
* Loops that the source does not bound by construction carry a fuel argument and
  return `none` when the fuel runs out.
* `int` is 32 bits wide (the Particle targets are 32-bit ARM). The counters
  `_current_value` and `currentValue` are declared in headers that are not at
  hand and are natural numbers here; the loop counters declared in the sources
  keep their width (`uint8_t i` wraps at 256).
* A store through `_dots + k` or `val + k` updates slot `k` of the block, also for
  `k = MAX_VALUES`, the slot just past the allocation; what such a store does to
  neighbouring memory is outside the embedding.
* The size of a payload is its number of characters (`String.length`), which is
  its number of bytes for ASCII text; the terminating NUL counts one more.
-/

/-! ## Machine integers (32-bit `int`, `uint8_t`) -/

/-- Conversion of an `unsigned int` to `int` on the 32-bit target. -/
def toInt32 (u : Nat) : Int :=
  if u % 4294967296 < 2147483648 then ((u % 4294967296 : Nat) : Int)
  else ((u % 4294967296 : Nat) : Int) - 4294967296

/-- Conversion of an `int` to `uint8_t`. -/
def toUInt8 (x : Int) : Nat := (x % 256).toNat

/-- The `%d` and `%lu` conversions of a non-negative integer. -/
def fmtNat (n : Nat) : String := toString n

/-- The three `%d%d%d` characters written for the milliseconds of a dot:
`units`, `dec` and `hund` are computed on an `int` copy of the field and stored
in `uint8_t` variables. -/
def millisDigits (dot_timestamp_millis : Nat) : String :=
  let timestamp_millis : Int := toInt32 dot_timestamp_millis
  let units : Nat := toUInt8 (Int.tmod timestamp_millis 10)
  let dec : Nat := toUInt8 (Int.tmod (Int.tdiv timestamp_millis 10) 10)
  let hund : Nat := toUInt8 (Int.tmod (Int.tdiv timestamp_millis 100) 10)
  fmtNat hund ++ fmtNat dec ++ fmtNat units

/-- The constants of `UbiConstants.h`. -/
structure UbiConstants (F : Type) where
  USER_AGENT : String
  MAX_VALUES : Nat
  MAX_BUFFER_SIZE : Nat
  ERROR_VALUE : F

/-! ## `UbiProtocolHandler` -/

namespace UbiProtocolHandler

/-- The protocol selector `IotProtocol` of `UbiTypes.h`. -/
inductive IotProtocol where
  | UBI_HTTP
  | UBI_TCP
  | UBI_UDP
  | UBI_PARTICLE
  deriving DecidableEq, Repr

/-- One buffered dot (`Value` of `UbiTypes.h`), with the fields `add` writes. -/
structure Value (F : Type) where
  variable_label : String
  dot_value : F
  dot_context : Option String
  dot_timestamp_seconds : Nat
  dot_timestamp_millis : Nat

/-- The transport behind `_ubiProtocol`, over a transport state `τ`. Each call
may change the transport state. -/
structure UbiProtocol (F Φ τ : Type) where
  sendData : τ → String → String → String → Φ → Bool × τ
  get : τ → String → String → F × τ

/-- The fields of a `UbiProtocolHandler`. `_dots` is the block of slots behind
the pointer, indexed by slot number; `serial` collects the lines printed on
`Serial`. -/
structure Handler (F : Type) where
  _iot_protocol : IotProtocol
  _token : String
  _dots : Nat → Value F
  _current_value : Nat
  _dirty : Bool
  _debug : Bool
  serial : List String

variable {F Φ τ : Type}

/-- The state left by `UbiProtocolHandler::builder`: protocol and token set,
`_current_value = 0`. The slots, `_dirty` and `_debug` are whatever the
allocation holds, so they are arguments. -/
def builder (token : String) (iot_protocol : IotProtocol) (dots : Nat → Value F)
    (dirty debug : Bool) : Handler F :=
  { _iot_protocol := iot_protocol, _token := token, _dots := dots, _current_value := 0,
    _dirty := dirty, _debug := debug, serial := [] }

/-- `UbiProtocolHandler::add`. The dot is stored at slot `_current_value` before
the capacity test; the test then pins `_current_value` at `MAX_VALUES`. -/
def add (K : UbiConstants F) (h : Handler F) (variable_label : String) (value : F)
    (context : Option String) (dot_timestamp_seconds dot_timestamp_millis : Nat) :
    Handler F :=
  let dot : Value F :=
    { variable_label := variable_label, dot_value := value, dot_context := context,
      dot_timestamp_seconds := dot_timestamp_seconds,
      dot_timestamp_millis := dot_timestamp_millis }
  let h1 : Handler F :=
    { h with _dirty := true,
             _dots := fun j => if j = h._current_value then dot else h._dots j,
             _current_value := h._current_value + 1 }
  if h1._current_value > K.MAX_VALUES then
    { h1 with
        serial := if h1._debug then
            h1.serial ++ ["You are sending more than the maximum of consecutive variables"]
          else h1.serial,
        _current_value := K.MAX_VALUES }
  else h1

/-- `add` applied to a stored dot. -/
def addValue (K : UbiConstants F) (h : Handler F) (v : Value F) : Handler F :=
  add K h v.variable_label v.dot_value v.dot_context v.dot_timestamp_seconds
    v.dot_timestamp_millis

/-- A sequence of `add` calls, in order. -/
def addAll (K : UbiConstants F) (h : Handler F) (vs : List (Value F)) : Handler F :=
  vs.foldl (addValue K) h

/-- The timestamp statements shared by both serializers, after the seconds have
been written: the three millisecond characters, or the literal `000`. -/
def appendMillis (payload : String) (dot_timestamp_millis : Nat) : String :=
  if dot_timestamp_millis ≠ 0 then payload ++ millisDigits dot_timestamp_millis
  else payload ++ "000"

/-- The statements of one iteration of the loop of `buildTcpPayload`, up to
`i++`, on the dot at slot `i`. -/
def tcpAppendDot (fmt : F → String) (payload : String) (d : Value F) : String :=
  let p1 := payload ++ d.variable_label ++ ":" ++ fmt d.dot_value
  let p2 := match d.dot_context with
    | some c => p1 ++ "$" ++ c
    | none => p1
  if d.dot_timestamp_seconds ≠ 0 then
    appendMillis (p2 ++ "@" ++ fmtNat d.dot_timestamp_seconds) d.dot_timestamp_millis
  else p2

/-- The `for` loop of `buildTcpPayload`; `i` is a `uint8_t`. Returns the payload
and the final `_current_value`. -/
def tcpLoop (fmt : F → String) (dots : Nat → Value F) :
    Nat → Nat → Nat → String → Option (String × Nat)
  | 0, i, current_value, payload =>
    if i < current_value then none else some (payload, current_value)
  | fuel + 1, i, current_value, payload =>
    if i < current_value then
      let p := tcpAppendDot fmt payload (dots i)
      let i1 := (i + 1) % 256
      if i1 < current_value then tcpLoop fmt dots fuel i1 current_value (p ++ ",")
      else tcpLoop fmt dots fuel i1 0 (p ++ "|end")
    else some (payload, current_value)

/-- The debug block closing both serializers. -/
def debugPayload (h : Handler F) (payload : String) : Handler F :=
  if h._debug then
    { h with serial := h.serial ++ ["----------", "payload:", payload, "----------", ""] }
  else h

/-- `UbiProtocolHandler::buildTcpPayload`: the payload written and the handler
afterwards. -/
def buildTcpPayload (K : UbiConstants F) (fmt : F → String) (fuel : Nat) (h : Handler F)
    (device_label device_name : String) : Option (String × Handler F) :=
  let p0 := K.USER_AGENT ++ "|POST|" ++ h._token ++ "|"
  let p1 := p0 ++ device_label ++ ":" ++ device_name
  let p2 := p1 ++ "=>"
  match tcpLoop fmt h._dots fuel 0 h._current_value p2 with
  | none => none
  | some (payload, cv) => some (payload, debugPayload { h with _current_value := cv } payload)

/-- The statements of one iteration of the loop of `buildHttpPayload`, up to
`i++`, on the dot at slot `i`. -/
def httpAppendDot (fmt : F → String) (payload : String) (d : Value F) : String :=
  let p1 := payload ++ "\"" ++ d.variable_label ++ "\":\x7b\"value\":" ++ fmt d.dot_value
  let p2 :=
    if d.dot_timestamp_seconds ≠ 0 then
      appendMillis (p1 ++ ",\"timestamp\":" ++ fmtNat d.dot_timestamp_seconds)
        d.dot_timestamp_millis
    else p1
  let p3 := match d.dot_context with
    | some c => p2 ++ ",\"context\": \x7b" ++ c ++ "\x7d"
    | none => p2
  p3 ++ "\x7d"

/-- The `for` loop of `buildHttpPayload`; `i` is a `uint8_t`. Returns the payload
and the final `_current_value`. -/
def httpLoop (fmt : F → String) (dots : Nat → Value F) :
    Nat → Nat → Nat → String → Option (String × Nat)
  | 0, i, current_value, payload =>
    if i < current_value then none else some (payload, current_value)
  | fuel + 1, i, current_value, payload =>
    if i < current_value then
      let p := httpAppendDot fmt payload (dots i)
      let i1 := (i + 1) % 256
      if i1 < current_value then httpLoop fmt dots fuel i1 current_value (p ++ ",")
      else httpLoop fmt dots fuel i1 0 (p ++ "\x7d")
    else some (payload, current_value)

/-- `UbiProtocolHandler::buildHttpPayload`: the payload written and the handler
afterwards. -/
def buildHttpPayload (fmt : F → String) (fuel : Nat) (h : Handler F) :
    Option (String × Handler F) :=
  match httpLoop fmt h._dots fuel 0 h._current_value "\x7b" with
  | none => none
  | some (payload, cv) => some (payload, debugPayload { h with _current_value := cv } payload)

/-- What one call of `send` yields: the value returned, the payload handed to the
transport, the handler and the transport state afterwards. -/
structure SendResult (F τ : Type) where
  result : Bool
  payload : String
  handler : Handler F
  transport : τ

/-- `UbiProtocolHandler::send`. -/
def send (K : UbiConstants F) (fmt : F → String) (P : UbiProtocol F Φ τ) (fuel : Nat)
    (h : Handler F) (t : τ) (device_label device_name : String) (flags : Φ) :
    Option (SendResult F τ) :=
  let built :=
    if h._iot_protocol = IotProtocol.UBI_TCP ∨ h._iot_protocol = IotProtocol.UBI_UDP then
      buildTcpPayload K fmt fuel h device_label device_name
    else buildHttpPayload fmt fuel h
  match built with
  | none => none
  | some (payload, h1) =>
    let h2 : Handler F :=
      if h1._debug then { h1 with serial := h1.serial ++ ["Sending data..."] } else h1
    let r := P.sendData t device_label device_name payload flags
    let h3 : Handler F :=
      if r.1 then { h2 with _dirty := false, _current_value := 0 } else h2
    some { result := r.1, payload := payload,
           handler := { h3 with _current_value := 0 }, transport := r.2 }

/-- `UbiProtocolHandler::get`: the value returned, the handler and the transport
state afterwards. -/
def get (K : UbiConstants F) (P : UbiProtocol F Φ τ) (h : Handler F) (t : τ)
    (device_label variable_label : String) : F × Handler F × τ :=
  if h._iot_protocol = IotProtocol.UBI_UDP ∨ h._iot_protocol = IotProtocol.UBI_PARTICLE then
    (K.ERROR_VALUE,
      { h with serial := h.serial ++
          ["ERROR, data retrieval is only supported using TCP or HTTP protocols"] },
      t)
  else
    let r := P.get t device_label variable_label
    (r.1, h, r.2)

/-- The text `send` builds on a handler holding zero readings: the loop of the
serializer is not entered, so the payload is what was written before it. -/
def emptyPayload (K : UbiConstants F) (h : Handler F) (device_label device_name : String) :
    String :=
  if h._iot_protocol = IotProtocol.UBI_TCP ∨ h._iot_protocol = IotProtocol.UBI_UDP then
    K.USER_AGENT ++ "|POST|" ++ h._token ++ "|" ++ device_label ++ ":" ++ device_name ++ "=>"
  else "\x7b"

/-- The dots stored in slots `i, …, i + n - 1`. -/
def slots (dots : Nat → Value F) (i n : Nat) : List (Value F) :=
  (List.range n).map (fun j => dots (i + j))

end UbiProtocolHandler

/-! ## Wiring `String` operations used by the legacy client

`String::indexOf`, `String::substring` and `String::toFloat` belong to the
platform. `indexOf` is the position of the first occurrence or `-1`;
`substring(k)` is the text from position `k` on, empty when `k` is past the end. -/

/-- Position of the first occurrence of `pat` in `s`, counted from `k`, or `-1`. -/
def indexOfAux (pat : List Char) : List Char → Nat → Int
  | [], _ => -1
  | c :: cs, k => if pat.isPrefixOf (c :: cs) then (k : Int) else indexOfAux pat cs (k + 1)

/-- The platform call `String::indexOf(pat)`. -/
def indexOf (s pat : String) : Int := indexOfAux pat.data s.data 0

/-- The platform call `String::substring(beginIndex)`. -/
def substring (s : String) (beginIndex : Nat) : String := ⟨s.data.drop beginIndex⟩

/-- Decrement of an `int` (two's complement, 32 bits). -/
def decInt32 (i : Int) : Int := if i = -2147483648 then 2147483647 else i - 1

/-! ## The legacy client `Ubidots` -/

namespace Ubidots

/-- One buffered reading of the legacy client (`Value` of `Ubidots.h`). -/
structure Value (F : Type) where
  idName : String
  idValue : F
  contextOne : Option String

/-- The socket `_client`, over a socket state `σ`. Every call may change the
state of the socket, so polling calls return the new state as well. -/
structure TCPClient (σ : Type) where
  connected : σ → Bool × σ
  connect : σ → σ
  println : σ → String → σ
  flush : σ → σ
  available : σ → Bool × σ
  read : σ → Char × σ
  stop : σ → σ

/-- The fields of a `Ubidots` object, with the state of its socket; `serial`
collects the lines printed on `Serial`. -/
structure Client (F σ : Type) where
  _token : String
  _dsName : String
  _pId : String
  val : Nat → Value F
  currentValue : Nat
  _client : σ
  serial : List String

variable {F σ : Type}

/-- `Ubidots::add(variable_id, value, ctext1)`. -/
def add (MAX_VALUES : Nat) (u : Client F σ) (variable_id : String) (value : F)
    (ctext1 : Option String) : Client F σ :=
  let r : Value F := { idName := variable_id, idValue := value, contextOne := ctext1 }
  let u1 : Client F σ :=
    { u with val := fun j => if j = u.currentValue then r else u.val j,
             currentValue := u.currentValue + 1 }
  if u1.currentValue > MAX_VALUES then
    { u1 with
        serial := u1.serial ++
          ["You are sending more than the maximum of consecutive variables"],
        currentValue := MAX_VALUES }
  else u1

/-- `add` applied to a stored reading. -/
def addValue (MAX_VALUES : Nat) (u : Client F σ) (v : Value F) : Client F σ :=
  add MAX_VALUES u v.idName v.idValue v.contextOne

/-- A sequence of `add` calls, in order. -/
def addAll (MAX_VALUES : Nat) (u : Client F σ) (vs : List (Value F)) : Client F σ :=
  vs.foldl (addValue MAX_VALUES) u

/-- The `for` loop of `sendAll`, with `n` iterations left to run at most (the
loop counter `i` only grows, so `currentValue - i` bounds them). Returns the
payload and the final `i`. -/
def sendAllLoop (fmt : F → String) (val : Nat → Value F) (currentValue : Nat) :
    Nat → Nat → String → String × Nat
  | 0, i, allData => (allData, i)
  | n + 1, i, allData =>
    if i < currentValue then
      let a1 := allData ++ (val i).idName ++ ":" ++ fmt (val i).idValue
      let a2 := match (val i).contextOne with
        | some c => a1 ++ "$" ++ c
        | none => a1
      let i1 := i + 1
      let a3 := if i1 < currentValue then a2 ++ "," else a2
      sendAllLoop fmt val currentValue n i1 a3
    else (allData, i)

/-- The payload `allData` of `sendAll` as it stands before the connect loop, and
the value of `i` there. -/
def sendAllPayload (USER_AGENT : String) (fmt : F → String) (u : Client F σ) :
    String × Nat :=
  let a0 := USER_AGENT ++ "|POST|" ++ u._token ++ "|" ++ u._pId ++ ":" ++ u._dsName ++ "=>"
  let r := sendAllLoop fmt u.val u.currentValue u.currentValue 0 a0
  (r.1 ++ "|end", r.2)

/-- The loop `while (!_client.connected() && i < 6) { i++; connect }`, with `n`
iterations left to run at most (`6 - i` bounds them). -/
def connectLoop (C : TCPClient σ) : Nat → σ → Nat → σ × Nat
  | 0, s, i => ((C.connected s).2, i)
  | n + 1, s, i =>
    let r := C.connected s
    if r.1 = false ∧ i < 6 then connectLoop C n (C.connect r.2) (i + 1) else (r.2, i)

/-- The statement `if (_client.connected()) { println(allData); flush(); }`. -/
def writeIfConnected (C : TCPClient σ) (s : σ) (allData : String) : σ :=
  let r := C.connected s
  if r.1 then C.flush (C.println r.2 allData) else r.2

/-- The loop `while (!_client.available() || i == 0) { i--; }`. -/
def waitLoop (C : TCPClient σ) : Nat → σ → Int → Option (σ × Int)
  | 0, s, i =>
    let r := C.available s
    if r.1 = false ∨ i = 0 then none else some (r.2, i)
  | fuel + 1, s, i =>
    let r := C.available s
    if r.1 = false ∨ i = 0 then waitLoop C fuel r.2 (decInt32 i) else some (r.2, i)

/-- The loop `while (_client.available()) { c = read(); response += c; }`. -/
def drainLoop (C : TCPClient σ) : Nat → σ → String → Option (σ × String)
  | 0, s, response =>
    let r := C.available s
    if r.1 then none else some (r.2, response)
  | fuel + 1, s, response =>
    let r := C.available s
    if r.1 then
      let c := C.read r.2
      drainLoop C fuel c.2 (response.push c.1)
    else some (r.2, response)

/-- `Ubidots::sendAll`: the value returned and the object afterwards. -/
def sendAll (USER_AGENT : String) (fmt : F → String) (C : TCPClient σ) (fuel : Nat)
    (u : Client F σ) : Option (Bool × Client F σ) :=
  let p := sendAllPayload USER_AGENT fmt u
  let c1 := connectLoop C (6 - p.2) u._client p.2
  let s2 := writeIfConnected C c1.1 p.1
  match waitLoop C fuel s2 50000 with
  | none => none
  | some (s3, _) =>
    match drainLoop C fuel s3 "" with
    | none => none
    | some (s4, _) => some (true, { u with currentValue := 0, _client := C.stop s4 })

/-- The query `allData` built by `getValueWithDatasource`. -/
def getValueQuery (token dsTag idName : String) : String :=
  "Particle/1.0|LV|" ++ token ++ "|" ++ dsTag ++ ":" ++ idName ++ "|end"

/-- The start offset `bodyPosinit = 3 + response.indexOf("OK|")`, a `uint8_t`. -/
def bodyPosinit (response : String) : Nat := toUInt8 (3 + indexOf response "OK|")

/-- The statements `response = response.substring(bodyPosinit); num =
response.toFloat();`. -/
def parseResponse (toFloat : String → F) (response : String) : F :=
  toFloat (substring response (bodyPosinit response))

/-- `Ubidots::getValueWithDatasource`: the value returned and the object
afterwards. -/
def getValueWithDatasource (toFloat : String → F) (C : TCPClient σ) (fuel : Nat)
    (u : Client F σ) (dsTag idName : String) : Option (F × Client F σ) :=
  let allData := getValueQuery u._token dsTag idName
  let c1 := connectLoop C 6 u._client 0
  let s2 := writeIfConnected C c1.1 allData
  match waitLoop C fuel s2 50000 with
  | none => none
  | some (s3, _) =>
    match drainLoop C fuel s3 "" with
    | none => none
    | some (s4, response) =>
      some (parseResponse toFloat response,
        { u with currentValue := 0, _client := C.stop (C.stop s4) })

/-- A scripted socket for concrete runs: `reachable` says whether `connect`
succeeds, `reply` is what the server answers to a line written while connected,
`inbox` holds the bytes ready to be read, `outbox` the lines written. -/
structure Wire where
  up : Bool
  reachable : Bool
  reply : List Char
  inbox : List Char
  outbox : List String
  connectCalls : Nat

/-- The socket operations on a `Wire`. -/
def wireClient : TCPClient Wire where
  connected := fun w => (w.up, w)
  connect := fun w => { w with up := w.reachable, connectCalls := w.connectCalls + 1 }
  println := fun w s =>
    if w.up then { w with outbox := w.outbox ++ [s], inbox := w.inbox ++ w.reply } else w
  flush := fun w => w
  available := fun w => (!w.inbox.isEmpty, w)
  read := fun w => (w.inbox.headD ' ', { w with inbox := w.inbox.tail })
  stop := fun w => { w with up := false }

end Ubidots

/-! ## The wire formats as the specification words them -/

namespace Spec

variable {F : Type}

/-- Three digits, hundreds first: `(millis/100)%10`, `(millis/10)%10`,
`millis%10`. -/
def millis3 (millis : Nat) : String :=
  String.mk [Nat.digitChar (millis / 100 % 10), Nat.digitChar (millis / 10 % 10),
    Nat.digitChar (millis % 10)]

/-- The decimal of `n`, zero-padded on the left to three characters. -/
def zeroPad3 (n : Nat) : String :=
  String.mk (List.replicate (3 - (Nat.toDigits 10 n).length) '0' ++ Nat.toDigits 10 n)

/-- The optional context of a delimited-text entry: `$` and the raw fragment. -/
def tcpContext : Option String → String
  | some c => "$" ++ c
  | none => ""

/-- The optional timestamp of a delimited-text entry: nothing when the seconds
are absent (zero), else `@`, the seconds and the three millisecond digits. -/
def tcpTimestamp (seconds millis : Nat) : String :=
  if seconds = 0 then "" else "@" ++ toString seconds ++ millis3 millis

/-- One delimited-text entry: `label:value[$context][@seconds millis]`. -/
def tcpEntry (fmt : F → String) (d : UbiProtocolHandler.Value F) : String :=
  d.variable_label ++ ":" ++ fmt d.dot_value ++ tcpContext d.dot_context
    ++ tcpTimestamp d.dot_timestamp_seconds d.dot_timestamp_millis

/-- The envelope of Variant A up to and including `=>`. -/
def tcpHeader (agent token device_label device_name : String) : String :=
  agent ++ "|POST|" ++ token ++ "|" ++ device_label ++ ":" ++ device_name ++ "=>"

/-- Variant A: the envelope, the entries joined by `,`, and `|end`. -/
def tcpPayload (agent token device_label device_name : String) (fmt : F → String)
    (ds : List (UbiProtocolHandler.Value F)) : String :=
  tcpHeader agent token device_label device_name
    ++ String.intercalate "," (ds.map (tcpEntry fmt)) ++ "|end"

/-- The optional timestamp of a JSON member: the seconds with the three
millisecond digits concatenated onto them. -/
def httpTimestamp (seconds millis : Nat) : String :=
  if seconds = 0 then "" else ",\"timestamp\":" ++ toString seconds ++ millis3 millis

/-- The optional context of a JSON member, embedded as a raw object body. -/
def httpContext : Option String → String
  | some c => ",\"context\": \x7b" ++ c ++ "\x7d"
  | none => ""

/-- One member of the JSON object of Variant B. -/
def httpMember (fmt : F → String) (d : UbiProtocolHandler.Value F) : String :=
  "\"" ++ d.variable_label ++ "\":\x7b\"value\":" ++ fmt d.dot_value
    ++ httpTimestamp d.dot_timestamp_seconds d.dot_timestamp_millis
    ++ httpContext d.dot_context ++ "\x7d"

/-- Variant B: the members joined by `,` between braces. -/
def httpPayload (fmt : F → String) (ds : List (UbiProtocolHandler.Value F)) : String :=
  "\x7b" ++ String.intercalate "," (ds.map (httpMember fmt)) ++ "\x7d"

end Spec

/-- A fixed-point stand-in for the `%f` conversion, on values counted in
millionths: sign, integer part, `.` and six decimals. Used for concrete runs. -/
def fmtMicro (x : Int) : String :=
  (if x < 0 then "-" else "") ++ toString (x.natAbs / 1000000) ++ "."
    ++ String.mk ((Nat.toDigits 10 (1000000 + x.natAbs % 1000000)).drop 1)

/-! ## Sample data for concrete runs -/

/-- A sample set of constants. -/
def sampleConstants : UbiConstants Int :=
  { USER_AGENT := "Particle/1.0", MAX_VALUES := 2, MAX_BUFFER_SIZE := 700,
    ERROR_VALUE := -1 }

/-- The content of a slot never written. -/
def blankDot : UbiProtocolHandler.Value Int :=
  { variable_label := "", dot_value := 0, dot_context := none,
    dot_timestamp_seconds := 0, dot_timestamp_millis := 0 }

/-- The reading `temp = 25.5`, no context, no timestamp. -/
def tempDot : UbiProtocolHandler.Value Int :=
  { variable_label := "temp", dot_value := 25500000, dot_context := none,
    dot_timestamp_seconds := 0, dot_timestamp_millis := 0 }

/-- A reading with a context and a timestamp of 1700000000 s and 7 ms. -/
def stampedDot : UbiProtocolHandler.Value Int :=
  { variable_label := "hum", dot_value := 3000000, dot_context := some "\"k\":1",
    dot_timestamp_seconds := 1700000000, dot_timestamp_millis := 7 }

/-- A freshly built TCP handler. -/
def freshTcp : UbiProtocolHandler.Handler Int :=
  UbiProtocolHandler.builder "tok" UbiProtocolHandler.IotProtocol.UBI_TCP (fun _ => blankDot)
    false false

/-- A freshly built HTTP handler. -/
def freshHttp : UbiProtocolHandler.Handler Int :=
  UbiProtocolHandler.builder "tok" UbiProtocolHandler.IotProtocol.UBI_HTTP (fun _ => blankDot)
    false false

/-- A transport that counts the calls made on it: `sendData` fails on every
other call, `get` answers `42.7`. -/
def countingTransport : UbiProtocolHandler.UbiProtocol Int Unit Nat where
  sendData := fun n _ _ _ _ => (n % 2 = 0, n + 1)
  get := fun n _ _ => (42700000, n + 1)

/-- The content of a slot of the legacy client never written. -/
def blankReading : Ubidots.Value Int := { idName := "", idValue := 0, contextOne := none }

/-- A socket that is down, cannot be reached, and has nothing to read. -/
def deadWire : Ubidots.Wire :=
  { up := false, reachable := false, reply := [], inbox := [], outbox := [],
    connectCalls := 0 }

/-- A freshly constructed legacy client on a given socket. -/
def freshClient (w : Ubidots.Wire) : Ubidots.Client Int Ubidots.Wire :=
  { _token := "tok", _dsName := "Particle", _pId := "dev", val := fun _ => blankReading,
    currentValue := 0, _client := w, serial := [] }

/-- A TCP handler filled to the capacity of `sampleConstants`. -/
def fullTcp : UbiProtocolHandler.Handler Int :=
  UbiProtocolHandler.addAll sampleConstants freshTcp [tempDot, stampedDot]

/-- A legacy client filled to a capacity of two readings. -/
def fullClient : Ubidots.Client Int Ubidots.Wire :=
  Ubidots.addAll 2 (freshClient deadWire)
    [{ idName := "a", idValue := 1000000, contextOne := none },
     { idName := "b", idValue := 2000000, contextOne := some "x" }]

/-- A freshly built UDP handler. -/
def freshUdp : UbiProtocolHandler.Handler Int :=
  UbiProtocolHandler.builder "tok" UbiProtocolHandler.IotProtocol.UBI_UDP (fun _ => blankDot)
    false false

/-- An HTTP handler holding two readings. -/
def fullHttp : UbiProtocolHandler.Handler Int :=
  UbiProtocolHandler.addAll sampleConstants freshHttp [tempDot, stampedDot]

/-- A response with 253 characters before the marker: `xxx…xOK|42.7`. -/
def longResponse : String := String.mk (List.replicate 253 'x') ++ "OK|42.7"

/-- A reachable socket whose server answers `longResponse`. -/
def longWire : Ubidots.Wire :=
  { up := false, reachable := true, reply := longResponse.data, inbox := [], outbox := [],
    connectCalls := 0 }

/-- A legacy client whose values are the text handed to `toFloat`, on a given
socket. -/
def textClient (w : Ubidots.Wire) : Ubidots.Client String Ubidots.Wire :=
  { _token := "tok", _dsName := "Particle", _pId := "dev",
    val := fun _ => { idName := "", idValue := "", contextOne := none },
    currentValue := 0, _client := w, serial := [] }

/-- A socket that is down and cannot be reached, with one stale byte to read. -/
def staleWire : Ubidots.Wire :=
  { up := false, reachable := false, reply := [], inbox := ['z'], outbox := [],
    connectCalls := 0 }

namespace Ubidots

variable {σ : Type}

/-- A socket made silent: `available` always answers that nothing is there.
Everything else is as in `C`. -/
def silent (C : TCPClient σ) : TCPClient σ :=
  { C with available := fun s => (false, (C.available s).2) }

/-- A socket that never gets connected: `connected` always answers no.
Everything else is as in `C`. -/
def unreachable (C : TCPClient σ) : TCPClient σ :=
  { C with connected := fun s => (false, (C.connected s).2) }

/-- What is recorded of the calls made on a socket. -/
inductive Event where
  | connect
  | println (line : String)
  deriving DecidableEq, Repr

/-- The socket `C` with a record of the `connect` and `println` calls made on it. -/
def traced (C : TCPClient σ) : TCPClient (σ × List Event) where
  connected := fun p => ((C.connected p.1).1, ((C.connected p.1).2, p.2))
  connect := fun p => (C.connect p.1, p.2 ++ [Event.connect])
  println := fun p line => (C.println p.1 line, p.2 ++ [Event.println line])
  flush := fun p => (C.flush p.1, p.2)
  available := fun p => ((C.available p.1).1, ((C.available p.1).2, p.2))
  read := fun p => ((C.read p.1).1, ((C.read p.1).2, p.2))
  stop := fun p => (C.stop p.1, p.2)

end Ubidots

/-- A legacy client holding six readings (capacity ten), on a socket that is down
and cannot be reached, with one stale byte to read. -/
def sixClient : Ubidots.Client Int Ubidots.Wire :=
  Ubidots.addAll 10 (freshClient staleWire)
    [{ idName := "a", idValue := 1000000, contextOne := none },
     { idName := "b", idValue := 2000000, contextOne := none },
     { idName := "c", idValue := 3000000, contextOne := none },
     { idName := "d", idValue := 4000000, contextOne := none },
     { idName := "e", idValue := 5000000, contextOne := none },
     { idName := "f", idValue := 6000000, contextOne := none }]

namespace UbiProtocolHandler

variable {F Φ τ : Type}

/-- `UbiProtocolHandler::setDebug`, on the handler's own flag. The call it
forwards to the transport sets a flag of the transport, which is not part of
the embedding. -/
def setDebug (h : Handler F) (debug : Bool) : Handler F := { h with _debug := debug }

/-- One call made on a handler by its user. -/
inductive Call (F Φ : Type) where
  | add (variable_label : String) (value : F) (context : Option String)
      (dot_timestamp_seconds dot_timestamp_millis : Nat)
  | send (device_label device_name : String) (flags : Φ)
  | get (device_label variable_label : String)

/-- What a call gives back to the user; for `send` also the payload handed to the
transport. -/
inductive Reply (F : Type) where
  | added
  | sent (result : Bool) (payload : String)
  | got (value : F)
  deriving DecidableEq

/-- One call on a handler and its transport. -/
def step (K : UbiConstants F) (fmt : F → String) (P : UbiProtocol F Φ τ) (fuel : Nat)
    (h : Handler F) (t : τ) : Call F Φ → Option (Reply F × Handler F × τ)
  | Call.add l x c s m => some (Reply.added, add K h l x c s m, t)
  | Call.send dl dn flags =>
    match send K fmt P fuel h t dl dn flags with
    | none => none
    | some r => some (Reply.sent r.result r.payload, r.handler, r.transport)
  | Call.get dl vl =>
    let r := get K P h t dl vl
    some (Reply.got r.1, r.2.1, r.2.2)

/-- A sequence of calls, in order: the replies, and the handler and transport
afterwards. -/
def run (K : UbiConstants F) (fmt : F → String) (P : UbiProtocol F Φ τ) (fuel : Nat) :
    Handler F → τ → List (Call F Φ) → Option (List (Reply F) × Handler F × τ)
  | h, t, [] => some ([], h, t)
  | h, t, c :: cs =>
    match step K fmt P fuel h t c with
    | none => none
    | some (r, h1, t1) =>
      match run K fmt P fuel h1 t1 cs with
      | none => none
      | some (rs, h2, t2) => some (r :: rs, h2, t2)

/-- What is observed of a run: the replies (return values and payloads), the
final buffer length and dirty flag, and the transport. -/
def observe (x : List (Reply F) × Handler F × τ) : List (Reply F) × Nat × Bool × τ :=
  (x.1, x.2.1._current_value, x.2.1._dirty, x.2.2)

/-- A handler with its diagnostics removed: debug flag off, nothing printed. -/
def quiet (h : Handler F) : Handler F := { h with _debug := false, serial := [] }

end UbiProtocolHandler

/-- A short session: one reading added, sent, then a read-back. -/
def sampleCalls : List (UbiProtocolHandler.Call Int Unit) :=
  [UbiProtocolHandler.Call.add "temp" 25500000 none 0 0,
   UbiProtocolHandler.Call.send "dev" "name" (),
   UbiProtocolHandler.Call.get "dev" "temp"]

/-- A reachable socket whose server answers `OK|42.7`, with the record of the
calls made on it. -/
def okWire : Ubidots.Wire × List Ubidots.Event :=
  ({ up := false, reachable := true, reply := "OK|42.7".data, inbox := [], outbox := [],
     connectCalls := 0 }, [])

/-- A legacy client whose values are the text handed to `toFloat`, on a recorded
socket. -/
def tracedClient (w : Ubidots.Wire × List Ubidots.Event) :
    Ubidots.Client String (Ubidots.Wire × List Ubidots.Event) :=
  { _token := "tok", _dsName := "Particle", _pId := "dev",
    val := fun _ => { idName := "", idValue := "", contextOne := none },
    currentValue := 0, _client := w, serial := [] }

namespace Ubidots

variable {F : Type}

/-- The readings stored in slots `i, …, i + n - 1` of the legacy client. -/
def readings (val : Nat → Value F) (i n : Nat) : List (Value F) :=
  (List.range n).map (fun j => val (i + j))

end Ubidots

namespace Spec

variable {F : Type}

/-- One entry of the legacy payload: `idName:value[$context]`. -/
def legacyEntry (fmt : F → String) (v : Ubidots.Value F) : String :=
  v.idName ++ ":" ++ fmt v.idValue ++ tcpContext v.contextOne

/-- The legacy payload: the envelope of Variant A on `_pId:_dsName`, the entries
joined by `,`, and `|end`. -/
def legacyPayload (agent token pId dsName : String) (fmt : F → String)
    (vs : List (Ubidots.Value F)) : String :=
  tcpHeader agent token pId dsName ++ String.intercalate "," (vs.map (legacyEntry fmt))
    ++ "|end"

/-- Number of characters of the optional context of a delimited-text entry. -/
def tcpContextSize : Option String → Nat
  | some c => 1 + c.length
  | none => 0

/-- Number of characters of a delimited-text entry, from the sizes of its parts:
label, `:`, printed value, `$` and context, `@`, seconds and three digits. -/
def tcpEntrySize (fmt : F → String) (d : UbiProtocolHandler.Value F) : Nat :=
  d.variable_label.length + 1 + (fmt d.dot_value).length + tcpContextSize d.dot_context
    + (if d.dot_timestamp_seconds = 0 then 0
       else 1 + (toString d.dot_timestamp_seconds).length + 3)

/-- Number of characters of the envelope up to and including `=>`. -/
def tcpHeaderSize (agent token device_label device_name : String) : Nat :=
  agent.length + 6 + token.length + 1 + device_label.length + 1 + device_name.length + 2

/-- Number of characters of a delimited-text payload: envelope, entries, one `,`
between two entries, and `|end`. -/
def tcpSize (agent token device_label device_name : String) (fmt : F → String)
    (ds : List (UbiProtocolHandler.Value F)) : Nat :=
  tcpHeaderSize agent token device_label device_name + (ds.map (tcpEntrySize fmt)).sum
    + (ds.length - 1) + 4

/-- Number of characters of a JSON member, from the sizes of its parts. -/
def httpMemberSize (fmt : F → String) (d : UbiProtocolHandler.Value F) : Nat :=
  1 + d.variable_label.length + 11 + (fmt d.dot_value).length
    + (if d.dot_timestamp_seconds = 0 then 0
       else 13 + (toString d.dot_timestamp_seconds).length + 3)
    + (match d.dot_context with
       | some c => 13 + c.length + 1
       | none => 0)
    + 1

/-- Number of characters of a JSON payload: braces, members, one `,` between two
members. -/
def httpSize (fmt : F → String) (ds : List (UbiProtocolHandler.Value F)) : Nat :=
  1 + (ds.map (httpMemberSize fmt)).sum + (ds.length - 1) + 1

/-- Number of characters of an entry of the legacy payload. -/
def legacyEntrySize (fmt : F → String) (v : Ubidots.Value F) : Nat :=
  v.idName.length + 1 + (fmt v.idValue).length + tcpContextSize v.contextOne

/-- Number of characters of the legacy payload. -/
def legacySize (agent token pId dsName : String) (fmt : F → String)
    (vs : List (Ubidots.Value F)) : Nat :=
  tcpHeaderSize agent token pId dsName + (vs.map (legacyEntrySize fmt)).sum
    + (vs.length - 1) + 4

end Spec

/-- A label of 700 characters. -/
def longLabel : String := String.mk (List.replicate 700 'a')

/-- A TCP handler holding one reading with a 700-character label. -/
def longTcp : UbiProtocolHandler.Handler Int :=
  UbiProtocolHandler.add sampleConstants freshTcp longLabel 0 none 0 0

/-- A legacy client holding one reading with a 700-character label. -/
def longClient : Ubidots.Client Int Ubidots.Wire :=
  Ubidots.add 2 (freshClient deadWire) longLabel 0 none

/-- The reading of the legacy client with the label, value and context of a dot. -/
def toLegacy {F : Type} (d : UbiProtocolHandler.Value F) : Ubidots.Value F :=
  { idName := d.variable_label, idValue := d.dot_value, contextOne := d.dot_context }

/-- A reading with a context, no timestamp, and milliseconds left over. -/
def plainDot : UbiProtocolHandler.Value Int :=
  { variable_label := "hum", dot_value := 3000000, dot_context := some "\"k\":1",
    dot_timestamp_seconds := 0, dot_timestamp_millis := 7 }

/-! # Theorems -/

/-! ## Lemmas on strings and digits -/

theorem intercalate_go_append (s : String) :
    ∀ (l : List String) (acc x : String),
      String.intercalate.go (acc ++ x) s l = acc ++ String.intercalate.go x s l := by
  intro l
  induction l with
  | nil => intro acc x; rfl
  | cons a as ih =>
    intro acc x
    simp only [String.intercalate.go]
    rw [← ih acc (x ++ s ++ a)]
    simp only [String.append_assoc]

theorem intercalate_cons_cons (s a b : String) (l : List String) :
    String.intercalate s (a :: b :: l) = a ++ s ++ String.intercalate s (b :: l) := by
  show String.intercalate.go (a ++ s ++ b) s l = a ++ s ++ String.intercalate.go b s l
  exact intercalate_go_append s l (a ++ s) b

theorem intercalate_singleton (s a : String) : String.intercalate s [a] = a := rfl

theorem fmtNat_digit (d : Nat) (hd : d < 10) :
    fmtNat d = String.mk [Nat.digitChar d] := by
  interval_cases d <;> rfl

theorem toInt32_small (m : Nat) (hm : m < 2147483648) : toInt32 m = (m : Int) := by
  unfold toInt32
  have h : m % 4294967296 = m := Nat.mod_eq_of_lt (by omega)
  rw [h, if_pos hm]

theorem toUInt8_digit (x : Nat) : toUInt8 (Int.tmod (x : Int) 10) = x % 10 := by
  unfold toUInt8
  have h1 : Int.tmod (x : Int) 10 = ((x % 10 : Nat) : Int) := by
    rw [Int.tmod_eq_emod (by omega) (by omega)]; norm_cast
  rw [h1]
  omega

theorem millisDigits_eq_millis3 (m : Nat) (hm : m < 2147483648) :
    millisDigits m = Spec.millis3 m := by
  unfold millisDigits Spec.millis3
  simp only [toInt32_small m hm]
  have e1 : Int.tdiv (m : Int) 10 = ((m / 10 : Nat) : Int) := by
    rw [Int.tdiv_eq_ediv (by omega) (by omega)]; norm_cast
  have e2 : Int.tdiv (m : Int) 100 = ((m / 100 : Nat) : Int) := by
    rw [Int.tdiv_eq_ediv (by omega) (by omega)]; norm_cast
  rw [e1, e2, toUInt8_digit, toUInt8_digit, toUInt8_digit]
  rw [fmtNat_digit _ (Nat.mod_lt _ (by decide)), fmtNat_digit _ (Nat.mod_lt _ (by decide)),
    fmtNat_digit _ (Nat.mod_lt _ (by decide))]
  rfl

/-! ## Lemmas on the reading buffer and the serializer loops -/

namespace UbiProtocolHandler

variable {F Φ τ : Type}

theorem appendMillis_eq (p : String) (m : Nat) (hm : m < 2147483648) :
    appendMillis p m = p ++ Spec.millis3 m := by
  unfold appendMillis
  by_cases h : m = 0
  · subst h; rfl
  · rw [if_pos h, millisDigits_eq_millis3 m hm]

theorem tcpAppendDot_eq (fmt : F → String) (p : String) (d : Value F)
    (hm : d.dot_timestamp_millis < 2147483648) :
    tcpAppendDot fmt p d = p ++ Spec.tcpEntry fmt d := by
  unfold tcpAppendDot Spec.tcpEntry Spec.tcpTimestamp
  cases hc : d.dot_context with
  | none =>
    by_cases hs : d.dot_timestamp_seconds = 0
    · simp [hs, Spec.tcpContext, String.append_assoc]
    · simp [hs, Spec.tcpContext, String.append_assoc, appendMillis_eq _ _ hm, fmtNat]
  | some c =>
    by_cases hs : d.dot_timestamp_seconds = 0
    · simp [hs, Spec.tcpContext, String.append_assoc]
    · simp [hs, Spec.tcpContext, String.append_assoc, appendMillis_eq _ _ hm, fmtNat]

theorem httpAppendDot_eq (fmt : F → String) (p : String) (d : Value F)
    (hm : d.dot_timestamp_millis < 2147483648) :
    httpAppendDot fmt p d = p ++ Spec.httpMember fmt d := by
  unfold httpAppendDot Spec.httpMember Spec.httpTimestamp
  cases hc : d.dot_context with
  | none =>
    by_cases hs : d.dot_timestamp_seconds = 0
    · simp [hs, Spec.httpContext, String.append_assoc]
    · simp [hs, Spec.httpContext, String.append_assoc, appendMillis_eq _ _ hm, fmtNat]
  | some c =>
    by_cases hs : d.dot_timestamp_seconds = 0
    · simp [hs, Spec.httpContext, String.append_assoc]
    · simp [hs, Spec.httpContext, String.append_assoc, appendMillis_eq _ _ hm, fmtNat]

theorem tcpLoop_exit (fmt : F → String) (dots : Nat → Value F) (fuel i cv : Nat)
    (p : String) (h : ¬ i < cv) : tcpLoop fmt dots fuel i cv p = some (p, cv) := by
  cases fuel <;> simp [tcpLoop, h]

theorem httpLoop_exit (fmt : F → String) (dots : Nat → Value F) (fuel i cv : Nat)
    (p : String) (h : ¬ i < cv) : httpLoop fmt dots fuel i cv p = some (p, cv) := by
  cases fuel <;> simp [httpLoop, h]

theorem slots_zero (dots : Nat → Value F) (i : Nat) : slots dots i 0 = [] := rfl

theorem slots_succ (dots : Nat → Value F) (i n : Nat) :
    slots dots i (n + 1) = dots i :: slots dots (i + 1) n := by
  unfold slots
  rw [List.range_succ_eq_map]
  simp only [List.map_cons, List.map_map, Nat.add_zero]
  congr 1
  apply List.map_congr_left
  intro j _
  simp only [Function.comp, Nat.succ_eq_add_one]
  congr 1
  omega

theorem tcpLoop_run (fmt : F → String) (dots : Nat → Value F) :
    ∀ (n fuel i : Nat) (p : String), i + (n + 1) ≤ 255 → n + 1 ≤ fuel →
      (∀ j, i ≤ j → j < i + (n + 1) → (dots j).dot_timestamp_millis < 2147483648) →
      tcpLoop fmt dots fuel i (i + (n + 1)) p =
        some (p ++ String.intercalate "," ((slots dots i (n + 1)).map (Spec.tcpEntry fmt))
          ++ "|end", 0) := by
  intro n
  induction n with
  | zero =>
    intro fuel i p hb hf hm
    obtain ⟨f, rfl⟩ : ∃ f, fuel = f + 1 := ⟨fuel - 1, by omega⟩
    have hi : (i + 1) % 256 = i + 1 := Nat.mod_eq_of_lt (by omega)
    simp only [tcpLoop, Nat.zero_add, hi, Nat.lt_irrefl, if_false,
      show i < i + 1 from Nat.lt_succ_self i, if_true]
    rw [tcpLoop_exit _ _ _ _ _ _ (by omega), tcpAppendDot_eq _ _ _ (hm i (by omega) (by omega))]
    rw [slots_succ, slots_zero]
    rfl
  | succ n ih =>
    intro fuel i p hb hf hm
    obtain ⟨f, rfl⟩ : ∃ f, fuel = f + 1 := ⟨fuel - 1, by omega⟩
    have hi : (i + 1) % 256 = i + 1 := Nat.mod_eq_of_lt (by omega)
    have hlt : i < i + (n + 1 + 1) := by omega
    have hlt2 : i + 1 < i + (n + 1 + 1) := by omega
    simp only [tcpLoop, hi, hlt, hlt2, if_true]
    have hcv : i + (n + 1 + 1) = (i + 1) + (n + 1) := by omega
    rw [hcv, ih f (i + 1) _ (by omega) (by omega) (fun j h1 h2 => hm j (by omega) (by omega)),
      tcpAppendDot_eq _ _ _ (hm i (by omega) (by omega))]
    rw [slots_succ dots i (n + 1), slots_succ dots (i + 1) n]
    simp only [List.map_cons, intercalate_cons_cons, String.append_assoc]

theorem httpLoop_run (fmt : F → String) (dots : Nat → Value F) :
    ∀ (n fuel i : Nat) (p : String), i + (n + 1) ≤ 255 → n + 1 ≤ fuel →
      (∀ j, i ≤ j → j < i + (n + 1) → (dots j).dot_timestamp_millis < 2147483648) →
      httpLoop fmt dots fuel i (i + (n + 1)) p =
        some (p ++ String.intercalate "," ((slots dots i (n + 1)).map (Spec.httpMember fmt))
          ++ "\x7d", 0) := by
  intro n
  induction n with
  | zero =>
    intro fuel i p hb hf hm
    obtain ⟨f, rfl⟩ : ∃ f, fuel = f + 1 := ⟨fuel - 1, by omega⟩
    have hi : (i + 1) % 256 = i + 1 := Nat.mod_eq_of_lt (by omega)
    simp only [httpLoop, Nat.zero_add, hi, Nat.lt_irrefl, if_false,
      show i < i + 1 from Nat.lt_succ_self i, if_true]
    rw [httpLoop_exit _ _ _ _ _ _ (by omega), httpAppendDot_eq _ _ _ (hm i (by omega) (by omega))]
    rw [slots_succ, slots_zero]
    rfl
  | succ n ih =>
    intro fuel i p hb hf hm
    obtain ⟨f, rfl⟩ : ∃ f, fuel = f + 1 := ⟨fuel - 1, by omega⟩
    have hi : (i + 1) % 256 = i + 1 := Nat.mod_eq_of_lt (by omega)
    have hlt : i < i + (n + 1 + 1) := by omega
    have hlt2 : i + 1 < i + (n + 1 + 1) := by omega
    simp only [httpLoop, hi, hlt, hlt2, if_true]
    have hcv : i + (n + 1 + 1) = (i + 1) + (n + 1) := by omega
    rw [hcv, ih f (i + 1) _ (by omega) (by omega) (fun j h1 h2 => hm j (by omega) (by omega)),
      httpAppendDot_eq _ _ _ (hm i (by omega) (by omega))]
    rw [slots_succ dots i (n + 1), slots_succ dots (i + 1) n]
    simp only [List.map_cons, intercalate_cons_cons, String.append_assoc]

end UbiProtocolHandler

namespace UbiProtocolHandler

variable {F Φ τ : Type}

theorem slots_snoc (dots : Nat → Value F) (c : Nat) :
    slots dots 0 (c + 1) = slots dots 0 c ++ [dots c] := by
  simp [slots, List.range_succ]

theorem slots_congr (d1 d2 : Nat → Value F) (c : Nat) (h : ∀ j, j < c → d1 j = d2 j) :
    slots d1 0 c = slots d2 0 c := by
  unfold slots
  apply List.map_congr_left
  intro j hj
  simp only [Nat.zero_add]
  exact h j (List.mem_range.mp hj)

theorem addValue_fit (K : UbiConstants F) (h : Handler F) (v : Value F)
    (hc : h._current_value < K.MAX_VALUES) :
    addValue K h v =
      { h with _dirty := true,
               _dots := fun j => if j = h._current_value then v else h._dots j,
               _current_value := h._current_value + 1 } := by
  unfold addValue add
  have : ¬ h._current_value + 1 > K.MAX_VALUES := by omega
  simp [this]

theorem addValue_full (K : UbiConstants F) (h : Handler F) (v : Value F)
    (hc : h._current_value = K.MAX_VALUES) :
    (addValue K h v)._current_value = K.MAX_VALUES ∧
      (∀ j, j < K.MAX_VALUES → (addValue K h v)._dots j = h._dots j) ∧
      (addValue K h v)._token = h._token ∧
      (addValue K h v)._iot_protocol = h._iot_protocol := by
  unfold addValue add
  have : h._current_value + 1 > K.MAX_VALUES := by omega
  simp only [this, if_true]
  refine ⟨trivial, ?_, trivial, trivial⟩
  intro j hj
  have : j ≠ h._current_value := by omega
  simp [this]

theorem addValue_le (K : UbiConstants F) (h : Handler F) (v : Value F) :
    (addValue K h v)._current_value ≤ K.MAX_VALUES := by
  unfold addValue add
  by_cases hc : h._current_value + 1 > K.MAX_VALUES
  · simp [hc]
  · simp only [hc, if_false]; omega

theorem addAll_fit (K : UbiConstants F) :
    ∀ (vs : List (Value F)) (h : Handler F),
      h._current_value + vs.length ≤ K.MAX_VALUES →
      (addAll K h vs)._current_value = h._current_value + vs.length ∧
      slots (addAll K h vs)._dots 0 (h._current_value + vs.length)
        = slots h._dots 0 h._current_value ++ vs ∧
      (addAll K h vs)._token = h._token ∧
      (addAll K h vs)._iot_protocol = h._iot_protocol := by
  intro vs
  induction vs with
  | nil => intro h _; exact ⟨rfl, by simp [addAll], rfl, rfl⟩
  | cons v vs ih =>
    intro h hb
    simp only [List.length_cons] at hb
    have hfit := addValue_fit K h v (by omega)
    have hcv : (addValue K h v)._current_value = h._current_value + 1 := by rw [hfit]
    obtain ⟨i1, i2, i3, i4⟩ := ih (addValue K h v) (by rw [hcv]; omega)
    have e : addAll K h (v :: vs) = addAll K (addValue K h v) vs := rfl
    rw [e, List.length_cons]
    refine ⟨by rw [i1, hcv]; omega, ?_, by rw [i3, hfit], by rw [i4, hfit]⟩
    have hlen : h._current_value + (vs.length + 1) = (addValue K h v)._current_value + vs.length := by
      rw [hcv]; omega
    rw [hlen, i2, hcv, slots_snoc]
    have hs : slots (addValue K h v)._dots 0 h._current_value = slots h._dots 0 h._current_value := by
      apply slots_congr
      intro j hj
      rw [hfit]
      have : j ≠ h._current_value := by omega
      simp [this]
    have hv : (addValue K h v)._dots h._current_value = v := by rw [hfit]; simp
    rw [hs, hv]
    simp

theorem addAll_builder (K : UbiConstants F) (token : String) (proto : IotProtocol)
    (dots : Nat → Value F) (dirty debug : Bool) (vs : List (Value F))
    (hN : vs.length ≤ K.MAX_VALUES) :
    (addAll K (builder token proto dots dirty debug) vs)._current_value = vs.length ∧
      slots (addAll K (builder token proto dots dirty debug) vs)._dots 0 vs.length = vs ∧
      (addAll K (builder token proto dots dirty debug) vs)._token = token ∧
      (addAll K (builder token proto dots dirty debug) vs)._iot_protocol = proto := by
  have h := addAll_fit K vs (builder token proto dots dirty debug)
    (by simp only [builder]; omega)
  simp only [builder, Nat.zero_add] at h ⊢
  obtain ⟨h1, h2, h3, h4⟩ := h
  refine ⟨h1, ?_, h3, h4⟩
  rw [h2]; simp [slots]

theorem slots_millis (dots : Nat → Value F) (n : Nat) (b : Nat)
    (h : ∀ v ∈ slots dots 0 n, v.dot_timestamp_millis < b) :
    ∀ j, 0 ≤ j → j < 0 + n → (dots j).dot_timestamp_millis < b := by
  intro j _ hj
  apply h
  unfold slots
  simp only [List.mem_map, List.mem_range]
  exact ⟨j, by omega, by simp⟩

/-- The payload of `buildTcpPayload` on a handler holding `n + 1` dots with small
milliseconds. -/
theorem buildTcpPayload_run (K : UbiConstants F) (fmt : F → String) (h : Handler F)
    (dl dn : String) (fuel n : Nat) (hcv : h._current_value = n + 1) (hb : n + 1 ≤ 255)
    (hf : n + 1 ≤ fuel)
    (hm : ∀ v ∈ slots h._dots 0 (n + 1), v.dot_timestamp_millis < 2147483648) :
    buildTcpPayload K fmt fuel h dl dn =
      some (Spec.tcpPayload K.USER_AGENT h._token dl dn fmt (slots h._dots 0 (n + 1)),
        debugPayload { h with _current_value := 0 }
          (Spec.tcpPayload K.USER_AGENT h._token dl dn fmt (slots h._dots 0 (n + 1)))) := by
  unfold buildTcpPayload
  have hr := tcpLoop_run fmt h._dots n fuel 0
    (K.USER_AGENT ++ "|POST|" ++ h._token ++ "|" ++ dl ++ ":" ++ dn ++ "=>")
    (by omega) hf (slots_millis h._dots (n + 1) _ hm)
  simp only [Nat.zero_add] at hr
  simp only [hcv, hr]
  rfl

/-- The payload of `buildHttpPayload` on a handler holding `n + 1` dots with small
milliseconds. -/
theorem buildHttpPayload_run (fmt : F → String) (h : Handler F)
    (fuel n : Nat) (hcv : h._current_value = n + 1) (hb : n + 1 ≤ 255)
    (hf : n + 1 ≤ fuel)
    (hm : ∀ v ∈ slots h._dots 0 (n + 1), v.dot_timestamp_millis < 2147483648) :
    buildHttpPayload fmt fuel h =
      some (Spec.httpPayload fmt (slots h._dots 0 (n + 1)),
        debugPayload { h with _current_value := 0 }
          (Spec.httpPayload fmt (slots h._dots 0 (n + 1)))) := by
  unfold buildHttpPayload
  have hr := httpLoop_run fmt h._dots n fuel 0 "\x7b"
    (by omega) hf (slots_millis h._dots (n + 1) _ hm)
  simp only [Nat.zero_add] at hr
  simp only [hcv, hr]
  rfl

end UbiProtocolHandler

/-! ## C1: the delimited-text payload of a non-empty buffer -/

namespace UbiProtocolHandler

variable {F Φ τ : Type}

/-- C1. After `N` readings (`1 ≤ N ≤ MAX_VALUES`, capacity within the range of
the `uint8_t` loop counter, milliseconds below `2^31`, which covers every 16-bit
value) are appended by `add` to a freshly built handler, `buildTcpPayload` returns and writes exactly the agent, `|POST|`,
the token, `|`, `device_label:device_name`, `=>`, the `N` entries in append order
joined by `,`, and `|end`; `send` hands that payload to the transport under TCP
and UDP; and the single reading `temp` with a value printed as `25.500000`, no
context and no timestamp gives `<agent>|POST|<token>|<device>:<name>=>temp:25.500000|end`. -/
theorem buildTcpPayload_serializes_added (K : UbiConstants F) (fmt : F → String)
    (token : String) (proto : IotProtocol) (dots : Nat → Value F) (dirty debug : Bool)
    (vs : List (Value F)) (device_label device_name : String) (fuel : Nat)
    (hcap : K.MAX_VALUES ≤ 255) (h1 : 1 ≤ vs.length) (hN : vs.length ≤ K.MAX_VALUES)
    (hms : ∀ v ∈ vs, v.dot_timestamp_millis < 2147483648) (hfuel : vs.length ≤ fuel) :
    (buildTcpPayload K fmt fuel (addAll K (builder token proto dots dirty debug) vs)
        device_label device_name).map Prod.fst
      = some (Spec.tcpPayload K.USER_AGENT token device_label device_name fmt vs)
    ∧ (∀ (P : UbiProtocol F Φ τ) (t : τ) (flags : Φ),
        proto = IotProtocol.UBI_TCP ∨ proto = IotProtocol.UBI_UDP →
        (send K fmt P fuel (addAll K (builder token proto dots dirty debug) vs) t
            device_label device_name flags).map SendResult.payload
          = some (Spec.tcpPayload K.USER_AGENT token device_label device_name fmt vs))
    ∧ (∀ x : F, fmt x = "25.500000" →
        (buildTcpPayload K fmt fuel
            (addAll K (builder token proto dots dirty debug)
              [{ variable_label := "temp", dot_value := x, dot_context := none,
                 dot_timestamp_seconds := 0, dot_timestamp_millis := 0 }])
            device_label device_name).map Prod.fst
          = some (K.USER_AGENT ++ "|POST|" ++ token ++ "|" ++ device_label ++ ":"
              ++ device_name ++ "=>temp:25.500000|end")) := by
  have key : ∀ ws : List (Value F), 1 ≤ ws.length → ws.length ≤ K.MAX_VALUES →
      (∀ v ∈ ws, v.dot_timestamp_millis < 2147483648) → ws.length ≤ fuel →
      buildTcpPayload K fmt fuel (addAll K (builder token proto dots dirty debug) ws)
          device_label device_name
        = some (Spec.tcpPayload K.USER_AGENT token device_label device_name fmt ws,
            debugPayload
              { _iot_protocol := (addAll K (builder token proto dots dirty debug) ws)._iot_protocol,
                _token := token,
                _dots := (addAll K (builder token proto dots dirty debug) ws)._dots,
                _current_value := 0,
                _dirty := (addAll K (builder token proto dots dirty debug) ws)._dirty,
                _debug := (addAll K (builder token proto dots dirty debug) ws)._debug,
                serial := (addAll K (builder token proto dots dirty debug) ws).serial }
              (Spec.tcpPayload K.USER_AGENT token device_label device_name fmt ws)) := by
    intro ws w1 wN wms wfuel
    obtain ⟨a1, a2, a3, _⟩ := addAll_builder K token proto dots dirty debug ws wN
    obtain ⟨n, hn⟩ : ∃ n, ws.length = n + 1 := ⟨ws.length - 1, by omega⟩
    have hrun := buildTcpPayload_run K fmt (addAll K (builder token proto dots dirty debug) ws)
      device_label device_name fuel n (by rw [a1, hn]) (by omega) (by omega)
      (by
        rw [← hn, a2]
        intro v hv
        exact wms v hv)
    rw [← hn, a2, a3] at hrun
    exact hrun
  have hproto := (addAll_builder K token proto dots dirty debug vs hN).2.2.2
  refine ⟨?_, ?_, ?_⟩
  · rw [key vs h1 hN hms hfuel]; rfl
  · intro P t flags hp
    unfold send
    rw [hproto, if_pos hp, key vs h1 hN hms hfuel]
    rfl
  · intro x hx
    rw [key _ (by simp) (by simp only [List.length_singleton]; omega)
      (by intro v hv; simp only [List.mem_singleton] at hv; subst hv; show (0 : Nat) < 2147483648; omega)
      (by simp only [List.length_singleton]; omega)]
    simp only [Option.map_some', Spec.tcpPayload, Spec.tcpHeader, List.map_cons, List.map_nil,
      intercalate_singleton, Spec.tcpEntry, Spec.tcpContext, Spec.tcpTimestamp, hx, if_true]
    simp only [String.append_assoc]
    rfl

theorem buildTcpPayload_serializes_added_witness :
    (sampleConstants.MAX_VALUES ≤ 255 ∧ 1 ≤ [tempDot, stampedDot].length
        ∧ [tempDot, stampedDot].length ≤ sampleConstants.MAX_VALUES
        ∧ (∀ v ∈ [tempDot, stampedDot], v.dot_timestamp_millis < 2147483648)
        ∧ [tempDot, stampedDot].length ≤ 2)
      ∧ (buildTcpPayload sampleConstants fmtMicro 2
          (addAll sampleConstants
            (builder "tok" IotProtocol.UBI_TCP (fun _ => blankDot) false false)
            [tempDot, stampedDot]) "dev" "name").map Prod.fst
        = some ("Particle/1.0|POST|tok|dev:name=>temp:25.500000,"
            ++ "hum:3.000000$\"k\":1@1700000000007|end") :=
  ⟨⟨by decide, by decide, by decide, by decide, by decide⟩,
    (@buildTcpPayload_serializes_added Int Unit Nat sampleConstants fmtMicro "tok"
      IotProtocol.UBI_TCP (fun _ => blankDot) false false [tempDot, stampedDot] "dev" "name" 2
      (by decide) (by decide) (by decide) (by decide) (by decide)).1.trans
      (congrArg some (by decide))⟩

end UbiProtocolHandler

/-! ## C2, C3: the payloads of an empty buffer -/

namespace UbiProtocolHandler

variable {F Φ τ : Type}

/-- C2. On a handler holding zero readings `buildHttpPayload` writes the single
opening brace: the closing brace is only written by the last iteration of the
loop, so the body is not the empty object. -/
theorem buildHttpPayload_empty (fmt : F → String) (fuel : Nat) (token : String)
    (proto : IotProtocol) (dots : Nat → Value F) (dirty debug : Bool) :
    (buildHttpPayload fmt fuel (builder token proto dots dirty debug)).map Prod.fst
        = some "\x7b"
      ∧ (buildHttpPayload fmt fuel (builder token proto dots dirty debug)).map Prod.fst
        ≠ some "\x7b\x7d" := by
  have h : (buildHttpPayload fmt fuel (builder token proto dots dirty debug)).map Prod.fst
      = some "\x7b" := by
    unfold buildHttpPayload
    simp only [builder]
    rw [httpLoop_exit _ _ _ _ _ _ (Nat.lt_irrefl 0)]
    rfl
  refine ⟨h, ?_⟩
  rw [h]
  decide

/-- C3. On a handler holding zero readings `buildTcpPayload` writes the envelope
up to `=>` and stops: `|end` is only written by the last iteration of the loop,
so the payload does not end with `|end`. -/
theorem buildTcpPayload_empty (K : UbiConstants F) (fmt : F → String) (fuel : Nat)
    (token : String) (proto : IotProtocol) (dots : Nat → Value F) (dirty debug : Bool)
    (device_label device_name : String) :
    (buildTcpPayload K fmt fuel (builder token proto dots dirty debug)
        device_label device_name).map Prod.fst
        = some (K.USER_AGENT ++ "|POST|" ++ token ++ "|" ++ device_label ++ ":"
            ++ device_name ++ "=>")
      ∧ (buildTcpPayload K fmt fuel (builder token proto dots dirty debug)
        device_label device_name).map Prod.fst
        ≠ some (K.USER_AGENT ++ "|POST|" ++ token ++ "|" ++ device_label ++ ":"
            ++ device_name ++ "=>" ++ "|end") := by
  have h : (buildTcpPayload K fmt fuel (builder token proto dots dirty debug)
        device_label device_name).map Prod.fst
        = some (K.USER_AGENT ++ "|POST|" ++ token ++ "|" ++ device_label ++ ":"
            ++ device_name ++ "=>") := by
    unfold buildTcpPayload
    simp only [builder]
    rw [tcpLoop_exit _ _ _ _ _ _ (Nat.lt_irrefl 0)]
    rfl
  refine ⟨h, ?_⟩
  rw [h]
  intro hc
  have hl := congrArg String.length (Option.some.inj hc)
  rw [String.length_append _ "|end"] at hl
  have : ("|end" : String).length = 4 := by decide
  omega

end UbiProtocolHandler

/-! ## C4: the capacity of the reading buffer -/

namespace UbiProtocolHandler

variable {F Φ τ : Type}

theorem tcpLoop_congr (fmt : F → String) (d1 d2 : Nat → Value F) :
    ∀ (fuel i cv : Nat) (p : String), (∀ j, j < cv → d1 j = d2 j) →
      tcpLoop fmt d1 fuel i cv p = tcpLoop fmt d2 fuel i cv p := by
  intro fuel
  induction fuel with
  | zero => intro i cv p _; rfl
  | succ f ih =>
    intro i cv p h
    by_cases hi : i < cv
    · simp only [tcpLoop, hi, if_true, h i hi]
      rw [ih _ cv _ h, ih _ 0 _ (fun j hj => absurd hj (Nat.not_lt_zero j))]
    · simp only [tcpLoop, hi, if_false]

theorem httpLoop_congr (fmt : F → String) (d1 d2 : Nat → Value F) :
    ∀ (fuel i cv : Nat) (p : String), (∀ j, j < cv → d1 j = d2 j) →
      httpLoop fmt d1 fuel i cv p = httpLoop fmt d2 fuel i cv p := by
  intro fuel
  induction fuel with
  | zero => intro i cv p _; rfl
  | succ f ih =>
    intro i cv p h
    by_cases hi : i < cv
    · simp only [httpLoop, hi, if_true, h i hi]
      rw [ih _ cv _ h, ih _ 0 _ (fun j hj => absurd hj (Nat.not_lt_zero j))]
    · simp only [httpLoop, hi, if_false]

theorem addAll_le (K : UbiConstants F) :
    ∀ (vs : List (Value F)) (h : Handler F), h._current_value ≤ K.MAX_VALUES →
      (addAll K h vs)._current_value ≤ K.MAX_VALUES := by
  intro vs
  induction vs with
  | nil => intro h hh; exact hh
  | cons v vs ih => intro h _; exact ih (addValue K h v) (addValue_le K h v)

end UbiProtocolHandler

namespace Ubidots

variable {F σ : Type}

theorem legacy_addValue_le (MAX_VALUES : Nat) (u : Client F σ) (v : Value F) :
    (addValue MAX_VALUES u v).currentValue ≤ MAX_VALUES := by
  unfold addValue add
  by_cases hc : u.currentValue + 1 > MAX_VALUES
  · simp [hc]
  · simp only [hc, if_false]; omega

theorem legacy_addAll_le (MAX_VALUES : Nat) :
    ∀ (vs : List (Value F)) (u : Client F σ), u.currentValue ≤ MAX_VALUES →
      (addAll MAX_VALUES u vs).currentValue ≤ MAX_VALUES := by
  intro vs
  induction vs with
  | nil => intro u hu; exact hu
  | cons v vs ih => intro u _; exact ih (addValue MAX_VALUES u v) (legacy_addValue_le MAX_VALUES u v)

theorem legacy_addValue_full (MAX_VALUES : Nat) (u : Client F σ) (v : Value F)
    (hc : u.currentValue = MAX_VALUES) :
    (addValue MAX_VALUES u v).currentValue = MAX_VALUES ∧
      (∀ j, j < MAX_VALUES → (addValue MAX_VALUES u v).val j = u.val j) ∧
      (addValue MAX_VALUES u v)._token = u._token ∧
      (addValue MAX_VALUES u v)._pId = u._pId ∧
      (addValue MAX_VALUES u v)._dsName = u._dsName := by
  unfold addValue add
  have : u.currentValue + 1 > MAX_VALUES := by omega
  simp only [this, if_true]
  refine ⟨trivial, ?_, trivial, trivial, trivial⟩
  intro j hj
  have : j ≠ u.currentValue := by omega
  simp [this]

theorem sendAllLoop_congr (fmt : F → String) (v1 v2 : Nat → Value F) (cv : Nat)
    (h : ∀ j, j < cv → v1 j = v2 j) :
    ∀ (n i : Nat) (a : String),
      sendAllLoop fmt v1 cv n i a = sendAllLoop fmt v2 cv n i a := by
  intro n
  induction n with
  | zero => intro i a; rfl
  | succ n ih =>
    intro i a
    by_cases hi : i < cv
    · simp only [sendAllLoop, hi, if_true, h i hi]
      exact ih _ _
    · simp only [sendAllLoop, hi, if_false]

end Ubidots

/-- C4. From a buffer within capacity, any sequence of `add` calls leaves the
length at most `MAX_VALUES`; an `add` made on a full buffer leaves the length at
`MAX_VALUES` and the first `MAX_VALUES` stored readings unchanged, and the
payloads serialized next are those of the buffer before that `add`. The same
holds for the legacy `Ubidots::add` and the payload of `sendAll`. -/
theorem add_capacity_invariant {F σ : Type} (K : UbiConstants F) (fmt : F → String)
    (h : UbiProtocolHandler.Handler F) (vs : List (UbiProtocolHandler.Value F))
    (variable_label : String) (value : F) (context : Option String)
    (dot_timestamp_seconds dot_timestamp_millis : Nat) (device_label device_name : String)
    (fuel : Nat) (USER_AGENT : String) (MAX_VALUES : Nat) (u : Ubidots.Client F σ)
    (ws : List (Ubidots.Value F))
    (hinv : h._current_value ≤ K.MAX_VALUES) (uinv : u.currentValue ≤ MAX_VALUES) :
    (UbiProtocolHandler.addAll K h vs)._current_value ≤ K.MAX_VALUES
    ∧ (h._current_value = K.MAX_VALUES →
        (UbiProtocolHandler.add K h variable_label value context dot_timestamp_seconds
            dot_timestamp_millis)._current_value = K.MAX_VALUES
        ∧ (∀ j, j < K.MAX_VALUES →
            (UbiProtocolHandler.add K h variable_label value context dot_timestamp_seconds
              dot_timestamp_millis)._dots j = h._dots j)
        ∧ (UbiProtocolHandler.buildTcpPayload K fmt fuel
              (UbiProtocolHandler.add K h variable_label value context dot_timestamp_seconds
                dot_timestamp_millis) device_label device_name).map Prod.fst
            = (UbiProtocolHandler.buildTcpPayload K fmt fuel h device_label
                device_name).map Prod.fst
        ∧ (UbiProtocolHandler.buildHttpPayload fmt fuel
              (UbiProtocolHandler.add K h variable_label value context dot_timestamp_seconds
                dot_timestamp_millis)).map Prod.fst
            = (UbiProtocolHandler.buildHttpPayload fmt fuel h).map Prod.fst)
    ∧ (Ubidots.addAll MAX_VALUES u ws).currentValue ≤ MAX_VALUES
    ∧ (u.currentValue = MAX_VALUES →
        (Ubidots.add MAX_VALUES u variable_label value context).currentValue = MAX_VALUES
        ∧ (∀ j, j < MAX_VALUES →
            (Ubidots.add MAX_VALUES u variable_label value context).val j = u.val j)
        ∧ (Ubidots.sendAllPayload USER_AGENT fmt
              (Ubidots.add MAX_VALUES u variable_label value context)).1
            = (Ubidots.sendAllPayload USER_AGENT fmt u).1) := by
  refine ⟨UbiProtocolHandler.addAll_le K vs h hinv, ?_, Ubidots.legacy_addAll_le MAX_VALUES ws u uinv, ?_⟩
  · intro hfull
    obtain ⟨a1, a2, a3, _⟩ := UbiProtocolHandler.addValue_full K h
      ⟨variable_label, value, context, dot_timestamp_seconds, dot_timestamp_millis⟩ hfull
    refine ⟨a1, a2, ?_, ?_⟩
    · unfold UbiProtocolHandler.buildTcpPayload
      have e := UbiProtocolHandler.tcpLoop_congr fmt _ _ fuel 0 K.MAX_VALUES
        (K.USER_AGENT ++ "|POST|" ++ h._token ++ "|" ++ device_label ++ ":" ++ device_name
          ++ "=>") a2
      change (UbiProtocolHandler.add K h variable_label value context dot_timestamp_seconds
        dot_timestamp_millis)._current_value = K.MAX_VALUES at a1
      change (UbiProtocolHandler.add K h variable_label value context dot_timestamp_seconds
        dot_timestamp_millis)._token = h._token at a3
      simp only [a1, a3, hfull]
      change UbiProtocolHandler.tcpLoop fmt (UbiProtocolHandler.add K h variable_label value
        context dot_timestamp_seconds dot_timestamp_millis)._dots fuel 0 K.MAX_VALUES _ = _ at e
      rw [e]
      cases UbiProtocolHandler.tcpLoop fmt h._dots fuel 0 K.MAX_VALUES
        (K.USER_AGENT ++ "|POST|" ++ h._token ++ "|" ++ device_label ++ ":" ++ device_name
          ++ "=>") <;> rfl
    · unfold UbiProtocolHandler.buildHttpPayload
      have e := UbiProtocolHandler.httpLoop_congr fmt _ _ fuel 0 K.MAX_VALUES "\x7b" a2
      change (UbiProtocolHandler.add K h variable_label value context dot_timestamp_seconds
        dot_timestamp_millis)._current_value = K.MAX_VALUES at a1
      simp only [a1, hfull]
      change UbiProtocolHandler.httpLoop fmt (UbiProtocolHandler.add K h variable_label value
        context dot_timestamp_seconds dot_timestamp_millis)._dots fuel 0 K.MAX_VALUES _ = _ at e
      rw [e]
      cases UbiProtocolHandler.httpLoop fmt h._dots fuel 0 K.MAX_VALUES "\x7b" <;> rfl
  · intro ufull
    obtain ⟨b1, b2, b3, b4, b5⟩ := Ubidots.legacy_addValue_full MAX_VALUES u
      ⟨variable_label, value, context⟩ ufull
    refine ⟨b1, b2, ?_⟩
    change (Ubidots.add MAX_VALUES u variable_label value context).currentValue = MAX_VALUES at b1
    change (Ubidots.add MAX_VALUES u variable_label value context)._token = u._token at b3
    change (Ubidots.add MAX_VALUES u variable_label value context)._pId = u._pId at b4
    change (Ubidots.add MAX_VALUES u variable_label value context)._dsName = u._dsName at b5
    have e := Ubidots.sendAllLoop_congr fmt _ _ MAX_VALUES b2 MAX_VALUES 0
      (USER_AGENT ++ "|POST|" ++ u._token ++ "|" ++ u._pId ++ ":" ++ u._dsName ++ "=>")
    change Ubidots.sendAllLoop fmt (Ubidots.add MAX_VALUES u variable_label value context).val
      MAX_VALUES MAX_VALUES 0 _ = _ at e
    simp only [Ubidots.sendAllPayload, b1, b3, b4, b5, ufull, e]

theorem add_capacity_invariant_witness :
    (fullTcp._current_value ≤ sampleConstants.MAX_VALUES
        ∧ fullClient.currentValue ≤ 2
        ∧ fullTcp._current_value = sampleConstants.MAX_VALUES
        ∧ fullClient.currentValue = 2)
      ∧ (UbiProtocolHandler.buildTcpPayload sampleConstants fmtMicro 2
          (UbiProtocolHandler.add sampleConstants fullTcp "extra" 9000000 none 0 0)
          "dev" "name").map Prod.fst
        = some ("Particle/1.0|POST|tok|dev:name=>temp:25.500000,"
            ++ "hum:3.000000$\"k\":1@1700000000007|end")
      ∧ (Ubidots.sendAllPayload "Particle/1.0" fmtMicro
          (Ubidots.add 2 fullClient "extra" 9000000 none)).1
        = "Particle/1.0|POST|tok|dev:Particle=>a:1.000000,b:2.000000$x|end" :=
  ⟨⟨by decide, by decide, by decide, by decide⟩,
    ((add_capacity_invariant sampleConstants fmtMicro fullTcp [] "extra" 9000000 none 0 0
      "dev" "name" 2 "Particle/1.0" 2 fullClient [] (by decide) (by decide)).2.1
        (by decide)).2.2.1.trans (by decide),
    ((add_capacity_invariant sampleConstants fmtMicro fullTcp [] "extra" 9000000 none 0 0
      "dev" "name" 2 "Particle/1.0" 2 fullClient [] (by decide) (by decide)).2.2.2
        (by decide)).2.2.trans (by decide)⟩

/-! ## C5: `send` clears the buffer and returns the result of the transport -/

namespace UbiProtocolHandler

variable {F Φ τ : Type}

theorem tcpLoop_returns (fmt : F → String) (dots : Nat → Value F) :
    ∀ (n fuel i : Nat) (p : String), i + n ≤ 255 → n ≤ fuel →
      ∃ q c, tcpLoop fmt dots fuel i (i + n) p = some (q, c) := by
  intro n
  induction n with
  | zero => intro fuel i p _ _; exact ⟨p, i + 0, tcpLoop_exit _ _ _ _ _ _ (by omega)⟩
  | succ n ih =>
    intro fuel i p hb hf
    obtain ⟨f, rfl⟩ : ∃ f, fuel = f + 1 := ⟨fuel - 1, by omega⟩
    have hi : (i + 1) % 256 = i + 1 := Nat.mod_eq_of_lt (by omega)
    have hlt : i < i + (n + 1) := by omega
    simp only [tcpLoop, hi, hlt, if_true]
    by_cases h2 : i + 1 < i + (n + 1)
    · simp only [h2, if_true]
      have hcv : i + (n + 1) = (i + 1) + n := by omega
      rw [hcv]
      exact ih f (i + 1) _ (by omega) (by omega)
    · simp only [h2, if_false]
      exact ⟨_, _, tcpLoop_exit _ _ _ _ _ _ (Nat.not_lt_zero _)⟩

theorem httpLoop_returns (fmt : F → String) (dots : Nat → Value F) :
    ∀ (n fuel i : Nat) (p : String), i + n ≤ 255 → n ≤ fuel →
      ∃ q c, httpLoop fmt dots fuel i (i + n) p = some (q, c) := by
  intro n
  induction n with
  | zero => intro fuel i p _ _; exact ⟨p, i + 0, httpLoop_exit _ _ _ _ _ _ (by omega)⟩
  | succ n ih =>
    intro fuel i p hb hf
    obtain ⟨f, rfl⟩ : ∃ f, fuel = f + 1 := ⟨fuel - 1, by omega⟩
    have hi : (i + 1) % 256 = i + 1 := Nat.mod_eq_of_lt (by omega)
    have hlt : i < i + (n + 1) := by omega
    simp only [httpLoop, hi, hlt, if_true]
    by_cases h2 : i + 1 < i + (n + 1)
    · simp only [h2, if_true]
      have hcv : i + (n + 1) = (i + 1) + n := by omega
      rw [hcv]
      exact ih f (i + 1) _ (by omega) (by omega)
    · simp only [h2, if_false]
      exact ⟨_, _, httpLoop_exit _ _ _ _ _ _ (Nat.not_lt_zero _)⟩

theorem send_returns (K : UbiConstants F) (fmt : F → String) (P : UbiProtocol F Φ τ)
    (fuel : Nat) (h : Handler F) (t : τ) (dl dn : String) (flags : Φ)
    (hcv : h._current_value ≤ 255) (hf : h._current_value ≤ fuel) :
    ∃ r, send K fmt P fuel h t dl dn flags = some r
      ∧ r.handler._current_value = 0
      ∧ r.handler._token = h._token
      ∧ r.handler._iot_protocol = h._iot_protocol
      ∧ r.result = (P.sendData t dl dn r.payload flags).1
      ∧ r.transport = (P.sendData t dl dn r.payload flags).2
      ∧ (h._current_value = 0 → r.payload = emptyPayload K h dl dn) := by
  unfold send
  by_cases hp : h._iot_protocol = IotProtocol.UBI_TCP ∨ h._iot_protocol = IotProtocol.UBI_UDP
  · obtain ⟨q, c, hq⟩ := tcpLoop_returns fmt h._dots h._current_value fuel 0
      (K.USER_AGENT ++ "|POST|" ++ h._token ++ "|" ++ dl ++ ":" ++ dn ++ "=>")
      (by omega) hf
    rw [Nat.zero_add] at hq
    simp only [if_pos hp, buildTcpPayload, hq]
    refine ⟨_, rfl, rfl, ?_, ?_, rfl, rfl, ?_⟩
    · cases hd : h._debug <;> cases hr : (P.sendData t dl dn q flags).1 <;>
        simp [debugPayload, hd, hr]
    · cases hd : h._debug <;> cases hr : (P.sendData t dl dn q flags).1 <;>
        simp [debugPayload, hd, hr]
    · intro h0
      rw [h0, tcpLoop_exit _ _ _ _ _ _ (Nat.lt_irrefl 0)] at hq
      simp only [emptyPayload, if_pos hp]
      exact (congrArg Prod.fst (Option.some.inj hq)).symm
  · obtain ⟨q, c, hq⟩ := httpLoop_returns fmt h._dots h._current_value fuel 0 "\x7b"
      (by omega) hf
    rw [Nat.zero_add] at hq
    simp only [if_neg hp, buildHttpPayload, hq]
    refine ⟨_, rfl, rfl, ?_, ?_, rfl, rfl, ?_⟩
    · cases hd : h._debug <;> cases hr : (P.sendData t dl dn q flags).1 <;>
        simp [debugPayload, hd, hr]
    · cases hd : h._debug <;> cases hr : (P.sendData t dl dn q flags).1 <;>
        simp [debugPayload, hd, hr]
    · intro h0
      rw [h0, httpLoop_exit _ _ _ _ _ _ (Nat.lt_irrefl 0)] at hq
      simp only [emptyPayload, if_neg hp]
      exact (congrArg Prod.fst (Option.some.inj hq)).symm

end UbiProtocolHandler

namespace UbiProtocolHandler

variable {F Φ τ : Type}

/-- C5. For every handler within capacity (capacity within the range of the
`uint8_t` loop counter), every protocol and every transport, `send` returns, the
buffer length is 0 afterwards and the value returned is the result of the
transport's `sendData` on the payload built. A second `send` with no `add` in
between also returns with length 0 and the transport's result, and its payload is
the one a freshly built handler with the same token and protocol sends: the text
written before the serializer's loop, with no entry. -/
theorem send_clears_buffer (K : UbiConstants F) (fmt : F → String) (P : UbiProtocol F Φ τ)
    (fuel : Nat) (h : Handler F) (t : τ) (device_label device_name : String) (flags : Φ)
    (hcap : K.MAX_VALUES ≤ 255) (hinv : h._current_value ≤ K.MAX_VALUES)
    (hfuel : h._current_value ≤ fuel) :
    ∃ r, send K fmt P fuel h t device_label device_name flags = some r
      ∧ r.handler._current_value = 0
      ∧ r.result = (P.sendData t device_label device_name r.payload flags).1
      ∧ ∀ (fuel2 fuel0 : Nat) (label2 name2 : String) (flags2 : Φ) (dots : Nat → Value F)
          (dirty debug : Bool) (t0 : τ),
          ∃ r2 r0,
            send K fmt P fuel2 r.handler r.transport label2 name2 flags2 = some r2
            ∧ send K fmt P fuel0 (builder h._token h._iot_protocol dots dirty debug) t0
                label2 name2 flags2 = some r0
            ∧ r2.payload = r0.payload
            ∧ r2.payload = emptyPayload K h label2 name2
            ∧ r2.handler._current_value = 0
            ∧ r2.result = (P.sendData r.transport label2 name2 r2.payload flags2).1 := by
  obtain ⟨r, hr, c1, c2, c3, c4, _, _⟩ :=
    send_returns K fmt P fuel h t device_label device_name flags (by omega) hfuel
  refine ⟨r, hr, c1, c4, ?_⟩
  intro fuel2 fuel0 label2 name2 flags2 dots dirty debug t0
  obtain ⟨r2, hr2, d1, _, _, d4, _, d6⟩ :=
    send_returns K fmt P fuel2 r.handler r.transport label2 name2 flags2
      (by rw [c1]; omega) (by rw [c1]; omega)
  obtain ⟨r0, hr0, _, _, _, _, _, e6⟩ :=
    send_returns K fmt P fuel0 (builder h._token h._iot_protocol dots dirty debug) t0
      label2 name2 flags2 (by simp [builder]) (by simp [builder])
  have p2 : r2.payload = emptyPayload K h label2 name2 := by
    rw [d6 c1]; simp only [emptyPayload, c2, c3]
  have p0 : r0.payload = emptyPayload K h label2 name2 := by
    rw [e6 rfl]; simp only [emptyPayload, builder]
  exact ⟨r2, r0, hr2, hr0, p2.trans p0.symm, p2, d1, d4⟩

theorem send_clears_buffer_witness :
    (sampleConstants.MAX_VALUES ≤ 255 ∧ fullTcp._current_value ≤ sampleConstants.MAX_VALUES
        ∧ fullTcp._current_value ≤ 2)
      ∧ (send sampleConstants fmtMicro countingTransport 2 fullTcp 1 "dev" "name" ()).map
          (fun r => (r.result, r.handler._current_value)) = some (false, 0) :=
  ⟨⟨by decide, by decide, by decide⟩, by
    obtain ⟨r, hr, h0, hres, _⟩ :=
      send_clears_buffer sampleConstants fmtMicro countingTransport 2 fullTcp 1 "dev" "name" ()
        (by decide) (by decide) (by decide)
    rw [hr, Option.map_some', h0, hres]
    rfl⟩

end UbiProtocolHandler

/-! ## C6: the timestamp suffix of a delimited-text entry -/

set_option maxRecDepth 1000000 in
theorem millis3_eq_zeroPad3_small : ∀ k, k < 1000 → Spec.millis3 k = Spec.zeroPad3 k := by
  decide

theorem millis3_mod (m : Nat) : Spec.millis3 m = Spec.millis3 (m % 1000) := by
  unfold Spec.millis3
  have h1 : m / 100 % 10 = m % 1000 / 100 % 10 := by omega
  have h2 : m / 10 % 10 = m % 1000 / 10 % 10 := by omega
  have h3 : m % 10 = m % 1000 % 10 := by omega
  rw [← h1, ← h2, ← h3]

namespace UbiProtocolHandler

variable {F Φ τ : Type}

/-- C6. In the delimited-text serializer, a reading whose `timestamp_seconds` is 0
gets no suffix after its optional context, whatever its milliseconds; a reading
with non-zero seconds and milliseconds below `2^31` (so every 16-bit value) gets
`@`, the decimal seconds and the three digits `(millis/100)%10`,
`(millis/10)%10`, `millis%10`, which are the decimal of `millis mod 1000`
zero-padded to three characters; 7 ms gives `007` and 0 ms gives `000`. -/
theorem tcp_timestamp_suffix (fmt : F → String) (payload : String) (d : Value F) :
    (d.dot_timestamp_seconds = 0 →
      tcpAppendDot fmt payload d
        = payload ++ d.variable_label ++ ":" ++ fmt d.dot_value
            ++ Spec.tcpContext d.dot_context)
    ∧ (d.dot_timestamp_seconds ≠ 0 → d.dot_timestamp_millis < 2147483648 →
      tcpAppendDot fmt payload d
        = payload ++ d.variable_label ++ ":" ++ fmt d.dot_value
            ++ Spec.tcpContext d.dot_context ++ "@" ++ toString d.dot_timestamp_seconds
            ++ String.mk [Nat.digitChar (d.dot_timestamp_millis / 100 % 10),
                Nat.digitChar (d.dot_timestamp_millis / 10 % 10),
                Nat.digitChar (d.dot_timestamp_millis % 10)]
      ∧ String.mk [Nat.digitChar (d.dot_timestamp_millis / 100 % 10),
            Nat.digitChar (d.dot_timestamp_millis / 10 % 10),
            Nat.digitChar (d.dot_timestamp_millis % 10)]
          = Spec.zeroPad3 (d.dot_timestamp_millis % 1000))
    ∧ appendMillis payload 7 = payload ++ "007"
    ∧ appendMillis payload 0 = payload ++ "000" := by
  refine ⟨?_, ?_, rfl, rfl⟩
  · intro hs
    unfold tcpAppendDot
    cases hc : d.dot_context <;> simp [hs, Spec.tcpContext, String.append_assoc]
  · intro hs hm
    refine ⟨?_, ?_⟩
    · rw [tcpAppendDot_eq fmt payload d hm]
      simp only [Spec.tcpEntry, Spec.tcpTimestamp, if_neg hs, Spec.millis3,
        String.append_assoc]
    · have h := millis3_mod d.dot_timestamp_millis
      rw [millis3_eq_zeroPad3_small _ (Nat.mod_lt _ (by decide))] at h
      exact h

theorem tcp_timestamp_suffix_witness :
    (stampedDot.dot_timestamp_seconds ≠ 0 ∧ stampedDot.dot_timestamp_millis < 2147483648)
      ∧ tcpAppendDot fmtMicro "=>" stampedDot = "=>hum:3.000000$\"k\":1@1700000000007" :=
  ⟨⟨by decide, by decide⟩,
    ((tcp_timestamp_suffix fmtMicro "=>" stampedDot).2.1 (by decide) (by decide)).1.trans
      (by decide)⟩

/-! ## C7: the JSON payload of a non-empty buffer -/

/-- C7. On a handler holding `N` readings, `1 ≤ N ≤ MAX_VALUES` (capacity within
the range of the `uint8_t` loop counter, milliseconds below `2^31`), `buildHttpPayload`
returns and writes an opening brace, the `N` members in slot order joined by `,`,
and a closing brace, as `Spec.httpPayload` spells out: a member is the quoted
label, a colon, an opening brace, the quoted word value, a colon and the value,
then the timestamp field (seconds followed by the three millisecond digits) when
the seconds are non-zero, then the context field (the raw context between braces)
when a context is present, then a closing brace. When the readings were appended
by `add` to a freshly built handler they are the members, in append order. -/
theorem buildHttpPayload_serializes_buffer (K : UbiConstants F) (fmt : F → String)
    (h : Handler F) (fuel : Nat) (token : String) (proto : IotProtocol)
    (dots : Nat → Value F) (dirty debug : Bool) (vs : List (Value F))
    (hcap : K.MAX_VALUES ≤ 255) (h1 : 1 ≤ h._current_value)
    (hN : h._current_value ≤ K.MAX_VALUES)
    (hms : ∀ j, j < h._current_value → (h._dots j).dot_timestamp_millis < 2147483648)
    (hfuel : h._current_value ≤ fuel) :
    (buildHttpPayload fmt fuel h).map Prod.fst
      = some (Spec.httpPayload fmt (slots h._dots 0 h._current_value))
    ∧ (h = addAll K (builder token proto dots dirty debug) vs → vs.length ≤ K.MAX_VALUES →
        (buildHttpPayload fmt fuel h).map Prod.fst = some (Spec.httpPayload fmt vs)) := by
  obtain ⟨n, hn⟩ : ∃ n, h._current_value = n + 1 := ⟨h._current_value - 1, by omega⟩
  have hrun := buildHttpPayload_run fmt h fuel n hn (by omega) (by omega)
    (by
      intro v hv
      unfold slots at hv
      simp only [List.mem_map, List.mem_range, Nat.zero_add] at hv
      obtain ⟨j, hj, rfl⟩ := hv
      exact hms j (by omega))
  have hfst : (buildHttpPayload fmt fuel h).map Prod.fst
      = some (Spec.httpPayload fmt (slots h._dots 0 h._current_value)) := by
    rw [hrun, hn]; rfl
  refine ⟨hfst, ?_⟩
  intro hh hlen
  obtain ⟨a1, a2, _, _⟩ := addAll_builder K token proto dots dirty debug vs hlen
  rw [hfst, hh, a1, a2]

theorem buildHttpPayload_serializes_buffer_witness :
    (sampleConstants.MAX_VALUES ≤ 255 ∧ 1 ≤ fullHttp._current_value
        ∧ fullHttp._current_value ≤ sampleConstants.MAX_VALUES
        ∧ (∀ j, j < fullHttp._current_value →
            (fullHttp._dots j).dot_timestamp_millis < 2147483648)
        ∧ fullHttp._current_value ≤ 2)
      ∧ (buildHttpPayload fmtMicro 2 fullHttp).map Prod.fst
        = some ("\x7b\"temp\":\x7b\"value\":25.500000\x7d,\"hum\":\x7b\"value\":3.000000,"
            ++ "\"timestamp\":1700000000007,\"context\": \x7b\"k\":1\x7d\x7d\x7d") :=
  ⟨⟨by decide, by decide, by decide, by decide, by decide⟩,
    ((buildHttpPayload_serializes_buffer sampleConstants fmtMicro fullHttp 2 "tok"
      IotProtocol.UBI_HTTP (fun _ => blankDot) false false [tempDot, stampedDot]
      (by decide) (by decide) (by decide) (by decide) (by decide)).2 rfl (by decide)).trans
      (by decide)⟩

/-! ## C8: `get` on a protocol without retrieval -/

/-- C8. Under `UBI_UDP` and `UBI_PARTICLE`, `get` returns `ERROR_VALUE` and leaves
the transport as it was (no call is made on it); under `UBI_TCP` and `UBI_HTTP`
it returns the value of the transport's `get` for the same labels, and the
transport is as that call left it. The buffer length is unchanged in every case. -/
theorem get_by_protocol (K : UbiConstants F) (P : UbiProtocol F Φ τ) (h : Handler F) (t : τ)
    (device_label variable_label : String) :
    (h._iot_protocol = IotProtocol.UBI_UDP ∨ h._iot_protocol = IotProtocol.UBI_PARTICLE →
      (get K P h t device_label variable_label).1 = K.ERROR_VALUE
      ∧ (get K P h t device_label variable_label).2.2 = t)
    ∧ (h._iot_protocol = IotProtocol.UBI_TCP ∨ h._iot_protocol = IotProtocol.UBI_HTTP →
      (get K P h t device_label variable_label).1 = (P.get t device_label variable_label).1
      ∧ (get K P h t device_label variable_label).2.2
          = (P.get t device_label variable_label).2)
    ∧ (get K P h t device_label variable_label).2.1._current_value = h._current_value := by
  refine ⟨?_, ?_, ?_⟩
  · intro hp
    simp only [get, if_pos hp, and_self]
  · intro hp
    have hn : ¬ (h._iot_protocol = IotProtocol.UBI_UDP
        ∨ h._iot_protocol = IotProtocol.UBI_PARTICLE) := by
      rcases hp with hp | hp <;> rw [hp] <;> decide
    simp only [get, if_neg hn, and_self]
  · unfold get
    split <;> rfl

theorem get_by_protocol_witness :
    (freshUdp._iot_protocol = IotProtocol.UBI_UDP
        ∨ freshUdp._iot_protocol = IotProtocol.UBI_PARTICLE)
      ∧ (get sampleConstants countingTransport freshUdp 0 "dev" "temp").1 = -1
      ∧ (get sampleConstants countingTransport freshUdp 0 "dev" "temp").2.2 = 0 :=
  ⟨by decide,
    (get_by_protocol sampleConstants countingTransport freshUdp 0 "dev" "temp").1 (by decide)⟩

end UbiProtocolHandler

/-! ## C9: value extraction from the response -/

namespace Ubidots

variable {F σ : Type}

set_option maxRecDepth 100000 in
/-- C9. On the response made of 253 characters `x` followed by `OK|42.7`, the
marker is found at index 253 and the text after it is `42.7`, but the start offset
`3 + 253` is stored in a `uint8_t` and becomes 0: the text converted to a number
is the whole response, not `42.7`, also when the response comes through
`getValueWithDatasource` from the socket. -/
theorem parseResponse_long_preamble (toFloat : String → F) :
    indexOf longResponse "OK|" = 253
    ∧ substring longResponse (3 + 253) = "42.7"
    ∧ bodyPosinit longResponse = 0
    ∧ parseResponse toFloat longResponse = toFloat longResponse
    ∧ longResponse ≠ "42.7"
    ∧ (getValueWithDatasource id wireClient 300 (textClient longWire) "dev" "temp").map
        Prod.fst = some longResponse := by
  have h3 : bodyPosinit longResponse = 0 := by decide
  refine ⟨by decide, by decide, h3, ?_, by decide, by decide⟩
  unfold parseResponse
  rw [h3]
  rfl

theorem parseResponse_short_preamble (toFloat : String → F) (response : String) (k : Nat)
    (hk : indexOf response "OK|" = (k : Int)) (h : k < 253) :
    parseResponse toFloat response = toFloat (substring response (k + 3)) := by
  unfold parseResponse bodyPosinit toUInt8
  rw [hk]
  have e : ((3 + (k : Int)) % 256).toNat = k + 3 := by omega
  rw [e]

/-! ## C10: the value returned by `sendAll` -/

theorem waitLoop_no_data (i : Int) (w : Wire) (hw : w.inbox = []) :
    ∀ fuel : Nat, waitLoop wireClient fuel w i = none := by
  intro fuel
  induction fuel generalizing i with
  | zero => simp [waitLoop, wireClient, hw]
  | succ f ih =>
    have h := ih (decInt32 i)
    simp only [waitLoop, wireClient, hw, List.isEmpty_nil, Bool.not_true, true_or, if_true]
    exact h

/-- C10. `sendAll` never returns `false`. With a socket that cannot be reached
and has nothing to read, no amount of fuel makes it return; with such a socket
holding one stale byte it returns `true` although nothing was written. -/
theorem sendAll_never_false (USER_AGENT : String) (fmt : F → String) (C : TCPClient σ)
    (fuel : Nat) (u : Client F σ) :
    (sendAll USER_AGENT fmt C fuel u).map Prod.fst ≠ some false
    ∧ (∀ fuel0 : Nat,
        (sendAll "Particle/1.0" fmtMicro wireClient fuel0
          (add 2 (freshClient deadWire) "temp" 25500000 none)).map Prod.fst = none)
    ∧ (sendAll "Particle/1.0" fmtMicro wireClient 1
          (add 2 (freshClient staleWire) "temp" 25500000 none)).map
        (fun r => (r.1, r.2._client.outbox, r.2._client.connectCalls)) = some (true, [], 5) := by
  refine ⟨?_, ?_, by decide⟩
  · simp only [sendAll]
    split
    · simp
    · split <;> simp
  · intro fuel0
    simp only [sendAll]
    rw [waitLoop_no_data]
    · rfl
    · decide

end Ubidots

/-! ## C11: the wait for the response -/

namespace Ubidots

variable {F σ : Type}

theorem waitLoop_silent (C : TCPClient σ) :
    ∀ (fuel : Nat) (s : σ) (i : Int), waitLoop (silent C) fuel s i = none := by
  intro fuel
  induction fuel with
  | zero => intro s i; simp [waitLoop, silent]
  | succ f ih =>
    intro s i
    simp only [waitLoop, silent, true_or, if_true]
    exact ih _ _

/-- C11. On a socket where no data ever becomes available the wait loop
`while (!available() || i == 0) i--` does not end: whatever the number of
iterations allowed (50000, or any other), the loop has not exited, and neither
`sendAll` nor `getValueWithDatasource` returns. -/
theorem waitLoop_never_ends (C : TCPClient σ) (fuel : Nat) (s : σ) (i : Int)
    (USER_AGENT : String) (fmt : F → String) (toFloat : String → F) (u : Client F σ)
    (dsTag idName : String) :
    waitLoop (silent C) fuel s i = none
    ∧ waitLoop (silent C) 50000 s 50000 = none
    ∧ sendAll USER_AGENT fmt (silent C) fuel u = none
    ∧ getValueWithDatasource toFloat (silent C) fuel u dsTag idName = none := by
  refine ⟨waitLoop_silent C fuel s i, waitLoop_silent C 50000 s 50000, ?_, ?_⟩
  · simp only [sendAll, waitLoop_silent]
  · simp only [getValueWithDatasource, waitLoop_silent]

end Ubidots

/-! ## C12: the connect retries -/

namespace Ubidots

variable {F σ : Type}

theorem sendAllLoop_index (fmt : F → String) (val : Nat → Value F) :
    ∀ (n i : Nat) (a : String),
      (sendAllLoop fmt val (i + n) n i a).2 = i + n := by
  intro n
  induction n with
  | zero => intro i a; rfl
  | succ n ih =>
    intro i a
    have hlt : i < i + (n + 1) := by omega
    simp only [sendAllLoop, hlt, if_true]
    have e : i + (n + 1) = (i + 1) + n := by omega
    rw [e]
    exact ih (i + 1) _

theorem sendAllPayload_index (USER_AGENT : String) (fmt : F → String) (u : Client F σ) :
    (sendAllPayload USER_AGENT fmt u).2 = u.currentValue := by
  have h := sendAllLoop_index fmt u.val u.currentValue 0
    (USER_AGENT ++ "|POST|" ++ u._token ++ "|" ++ u._pId ++ ":" ++ u._dsName ++ "=>")
  simp only [Nat.zero_add] at h
  simp only [sendAllPayload, h]

theorem connectLoop_unreachable (C : TCPClient σ) :
    ∀ (n i : Nat) (s : σ) (l : List Event),
      (connectLoop (traced (unreachable C)) n (s, l) i).1.2
        = l ++ List.replicate (min n (6 - i)) Event.connect := by
  intro n
  induction n with
  | zero => intro i s l; simp [connectLoop, traced, unreachable]
  | succ n ih =>
    intro i s l
    by_cases hi : i < 6
    · simp only [connectLoop, traced, unreachable, hi, and_self, if_true]
      have h := ih (i + 1) (C.connect (C.connected s).2) (l ++ [Event.connect])
      simp only [traced, unreachable] at h
      rw [h]
      have e : min (n + 1) (6 - i) = min n (6 - (i + 1)) + 1 := by omega
      rw [e, List.replicate_succ, List.append_assoc]
      rfl
    · simp only [connectLoop, traced, unreachable, hi, and_false, if_false]
      have e : min (n + 1) (6 - i) = 0 := by omega
      rw [e]
      simp

theorem writeIfConnected_unreachable (C : TCPClient σ) (p : σ × List Event)
    (allData : String) :
    (writeIfConnected (traced (unreachable C)) p allData).2 = p.2 := by
  simp [writeIfConnected, traced, unreachable]

theorem waitLoop_trace (C : TCPClient σ) :
    ∀ (fuel : Nat) (p : σ × List Event) (i : Int) (r : (σ × List Event) × Int),
      waitLoop (traced C) fuel p i = some r → r.1.2 = p.2 := by
  intro fuel
  induction fuel with
  | zero =>
    intro p i r h
    simp only [waitLoop] at h
    split at h
    · exact absurd h (by simp)
    · cases h; rfl
  | succ f ih =>
    intro p i r h
    simp only [waitLoop] at h
    split at h
    · exact (ih _ _ _ h).trans rfl
    · cases h; rfl

theorem drainLoop_trace (C : TCPClient σ) :
    ∀ (fuel : Nat) (p : σ × List Event) (resp : String) (r : (σ × List Event) × String),
      drainLoop (traced C) fuel p resp = some r → r.1.2 = p.2 := by
  intro fuel
  induction fuel with
  | zero =>
    intro p resp r h
    simp only [drainLoop] at h
    split at h
    · exact absurd h (by simp)
    · cases h; rfl
  | succ f ih =>
    intro p resp r h
    simp only [drainLoop] at h
    split at h
    · exact (ih _ _ _ h).trans rfl
    · cases h; rfl

end Ubidots

namespace Ubidots

variable {F σ : Type}

/-- C12. In `sendAll` the connect loop reuses the counter `i` of the payload
loop, which stands at the number of buffered readings: on a socket that never
gets connected `connect` is called `6 - currentValue` times, not 6, whenever
`sendAll` returns. With one reading buffered it is called 5 times, with six
readings not at all; `getValueWithDatasource`, which starts at `i = 0`, calls it
6 times. -/
theorem connect_attempts_depend_on_buffer (USER_AGENT : String) (fmt : F → String)
    (toFloat : String → F) (C : TCPClient σ) (fuel : Nat) (u : Client F (σ × List Event))
    (dsTag idName : String) :
    (sendAll USER_AGENT fmt (traced (unreachable C)) fuel u).map (fun r => r.2._client.2)
      = (sendAll USER_AGENT fmt (traced (unreachable C)) fuel u).map
          (fun _ => u._client.2 ++ List.replicate (6 - u.currentValue) Event.connect)
    ∧ (getValueWithDatasource toFloat (traced (unreachable C)) fuel u dsTag idName).map
          (fun r => r.2._client.2)
      = (getValueWithDatasource toFloat (traced (unreachable C)) fuel u dsTag idName).map
          (fun _ => u._client.2 ++ List.replicate 6 Event.connect)
    ∧ (sendAll "Particle/1.0" fmtMicro wireClient 1
          (add 2 (freshClient staleWire) "temp" 25500000 none)).map
        (fun r => r.2._client.connectCalls) = some 5
    ∧ (sendAll "Particle/1.0" fmtMicro wireClient 1 sixClient).map
        (fun r => r.2._client.connectCalls) = some 0
    ∧ (getValueWithDatasource id wireClient 1 (textClient staleWire) "dev" "temp").map
        (fun r => r.2._client.connectCalls) = some 6 := by
  refine ⟨?_, ?_, by decide, by decide, by decide⟩
  · simp only [sendAll, sendAllPayload_index]
    have hc := connectLoop_unreachable C (6 - u.currentValue) u.currentValue u._client.1
      u._client.2
    rw [Nat.min_self] at hc
    split
    · rfl
    · next s3 j hw =>
      have h3 := waitLoop_trace (unreachable C) _ _ _ _ hw
      rw [writeIfConnected_unreachable] at h3
      split
      · rfl
      · next s4 resp hd =>
        have h4 := drainLoop_trace (unreachable C) _ _ _ _ hd
        simp only [Option.map_some', Option.some.injEq]
        show s4.2 = _
        rw [h4, h3]
        exact hc
  · simp only [getValueWithDatasource]
    have hc := connectLoop_unreachable C 6 0 u._client.1 u._client.2
    split
    · rfl
    · next s3 j hw =>
      have h3 := waitLoop_trace (unreachable C) _ _ _ _ hw
      rw [writeIfConnected_unreachable] at h3
      split
      · rfl
      · next s4 resp hd =>
        have h4 := drainLoop_trace (unreachable C) _ _ _ _ hd
        simp only [Option.map_some', Option.some.injEq]
        show s4.2 = _
        rw [h4, h3]
        exact hc

end Ubidots

/-! ## C13: the debug flag -/

namespace UbiProtocolHandler

variable {F Φ τ : Type}

theorem quiet_add (K : UbiConstants F) (h : Handler F) (l : String) (x : F)
    (c : Option String) (s m : Nat) :
    quiet (add K h l x c s m) = quiet (add K (quiet h) l x c s m) := by
  unfold add quiet
  by_cases hc : h._current_value + 1 > K.MAX_VALUES
  · simp only [hc, if_true]
  · simp only [hc, if_false]

theorem quiet_get (K : UbiConstants F) (P : UbiProtocol F Φ τ) (h : Handler F) (t : τ)
    (dl vl : String) :
    (get K P h t dl vl).1 = (get K P (quiet h) t dl vl).1
    ∧ quiet (get K P h t dl vl).2.1 = quiet (get K P (quiet h) t dl vl).2.1
    ∧ (get K P h t dl vl).2.2 = (get K P (quiet h) t dl vl).2.2 := by
  unfold get quiet
  by_cases hp : h._iot_protocol = IotProtocol.UBI_UDP ∨ h._iot_protocol = IotProtocol.UBI_PARTICLE
  · simp only [hp, if_true, and_self]
  · simp only [hp, if_false, and_self]

theorem quiet_send (K : UbiConstants F) (fmt : F → String) (P : UbiProtocol F Φ τ)
    (fuel : Nat) (h : Handler F) (t : τ) (dl dn : String) (flags : Φ) :
    (send K fmt P fuel h t dl dn flags).map
        (fun r => (r.result, r.payload, quiet r.handler, r.transport))
      = (send K fmt P fuel (quiet h) t dl dn flags).map
        (fun r => (r.result, r.payload, quiet r.handler, r.transport)) := by
  unfold send buildTcpPayload buildHttpPayload debugPayload quiet
  by_cases hp : h._iot_protocol = IotProtocol.UBI_TCP ∨ h._iot_protocol = IotProtocol.UBI_UDP
  · simp only [hp, if_true]
    cases tcpLoop fmt h._dots fuel 0 h._current_value
        (K.USER_AGENT ++ "|POST|" ++ h._token ++ "|" ++ dl ++ ":" ++ dn ++ "=>") with
    | none => rfl
    | some q =>
      cases hd : h._debug <;> cases hr : (P.sendData t dl dn q.1 flags).1 <;>
        simp [hd, hr]
  · simp only [hp, if_false]
    cases httpLoop fmt h._dots fuel 0 h._current_value "\x7b" with
    | none => rfl
    | some q =>
      cases hd : h._debug <;> cases hr : (P.sendData t dl dn q.1 flags).1 <;>
        simp [hd, hr]

end UbiProtocolHandler

namespace UbiProtocolHandler

variable {F Φ τ : Type}

theorem step_quiet (K : UbiConstants F) (fmt : F → String) (P : UbiProtocol F Φ τ)
    (fuel : Nat) (h : Handler F) (t : τ) (c : Call F Φ) :
    (step K fmt P fuel h t c).map (fun x => (x.1, quiet x.2.1, x.2.2))
      = (step K fmt P fuel (quiet h) t c).map (fun x => (x.1, quiet x.2.1, x.2.2)) := by
  cases c with
  | add l x ctx s m =>
    simp only [step, Option.map_some', quiet_add K h l x ctx s m]
  | send dl dn flags =>
    have hq := quiet_send K fmt P fuel h t dl dn flags
    simp only [step]
    cases h1 : send K fmt P fuel h t dl dn flags with
    | none =>
      rw [h1] at hq
      cases h2 : send K fmt P fuel (quiet h) t dl dn flags with
      | none => rfl
      | some r2 => rw [h2] at hq; simp at hq
    | some r1 =>
      rw [h1] at hq
      cases h2 : send K fmt P fuel (quiet h) t dl dn flags with
      | none => rw [h2] at hq; simp at hq
      | some r2 =>
        rw [h2] at hq
        simp only [Option.map_some', Option.some.injEq, Prod.mk.injEq] at hq ⊢
        obtain ⟨e1, e2, e3, e4⟩ := hq
        exact ⟨by rw [e1, e2], e3, e4⟩
  | get dl vl =>
    obtain ⟨e1, e2, e3⟩ := quiet_get K P h t dl vl
    simp only [step, Option.map_some', Option.some.injEq, Prod.mk.injEq]
    exact ⟨by rw [e1], e2, e3⟩

theorem run_quiet (K : UbiConstants F) (fmt : F → String) (P : UbiProtocol F Φ τ)
    (fuel : Nat) :
    ∀ (cs : List (Call F Φ)) (h : Handler F) (t : τ),
      (run K fmt P fuel h t cs).map (fun x => (x.1, quiet x.2.1, x.2.2))
        = (run K fmt P fuel (quiet h) t cs).map (fun x => (x.1, quiet x.2.1, x.2.2)) := by
  intro cs
  induction cs with
  | nil =>
    intro h t
    simp only [run, Option.map_some', Option.some.injEq, Prod.mk.injEq, true_and, and_true]
    rfl
  | cons c cs ih =>
    intro h t
    have hs := step_quiet K fmt P fuel h t c
    simp only [run]
    cases h1 : step K fmt P fuel h t c with
    | none =>
      rw [h1] at hs
      cases h2 : step K fmt P fuel (quiet h) t c with
      | none => rfl
      | some r2 => rw [h2] at hs; simp at hs
    | some r1 =>
      rw [h1] at hs
      cases h2 : step K fmt P fuel (quiet h) t c with
      | none => rw [h2] at hs; simp at hs
      | some r2 =>
        rw [h2] at hs
        simp only [Option.map_some', Option.some.injEq, Prod.mk.injEq] at hs
        obtain ⟨e1, e2, e3⟩ := hs
        obtain ⟨a1, b1, t1⟩ := r1
        obtain ⟨a2, b2, t2⟩ := r2
        simp only at e1 e2 e3 ⊢
        subst e1 e3
        have i1 := ih b1 t1
        have i2 := ih b2 t1
        rw [e2] at i1
        have i3 := i1.trans i2.symm
        cases g1 : run K fmt P fuel b1 t1 cs with
        | none =>
          rw [g1] at i3
          cases g2 : run K fmt P fuel b2 t1 cs with
          | none => rfl
          | some y2 => rw [g2] at i3; simp at i3
        | some y1 =>
          rw [g1] at i3
          cases g2 : run K fmt P fuel b2 t1 cs with
          | none => rw [g2] at i3; simp at i3
          | some y2 =>
            rw [g2] at i3
            simp only [Option.map_some', Option.some.injEq, Prod.mk.injEq] at i3 ⊢
            obtain ⟨f1, f2, f3⟩ := i3
            exact ⟨by rw [f1], f2, f3⟩

/-- C13. For every sequence of `add`, `send` and `get` calls, every handler and
every transport, running the sequence with `_debug` set and with `_debug` cleared
either fails to return in both cases or gives the same replies (return values
and payloads handed to the transport), the same final buffer length and dirty
flag, and the same transport state. A sample session returns under both settings
and differs only in the lines printed on `Serial`. -/
theorem debug_flag_no_effect (K : UbiConstants F) (fmt : F → String)
    (P : UbiProtocol F Φ τ) (fuel : Nat) (cs : List (Call F Φ)) (h : Handler F) (t : τ) :
    (run K fmt P fuel (setDebug h true) t cs).map observe
      = (run K fmt P fuel (setDebug h false) t cs).map observe
    ∧ (run sampleConstants fmtMicro countingTransport 1 (setDebug freshTcp true) 0
          sampleCalls).map observe
      = some ([Reply.added,
          Reply.sent true "Particle/1.0|POST|tok|dev:name=>temp:25.500000|end",
          Reply.got 42700000], 0, false, 2)
    ∧ (run sampleConstants fmtMicro countingTransport 1 (setDebug freshTcp true) 0
          sampleCalls).map (fun x => x.2.1.serial)
      ≠ (run sampleConstants fmtMicro countingTransport 1 (setDebug freshTcp false) 0
          sampleCalls).map (fun x => x.2.1.serial) := by
  refine ⟨?_, by decide, by decide⟩
  have ho : ∀ o : Option (List (Reply F) × Handler F × τ),
      o.map observe = (o.map (fun x => (x.1, quiet x.2.1, x.2.2))).map observe := by
    intro o
    cases o <;> rfl
  rw [ho (run K fmt P fuel (setDebug h true) t cs),
    ho (run K fmt P fuel (setDebug h false) t cs),
    run_quiet K fmt P fuel cs (setDebug h true) t,
    run_quiet K fmt P fuel cs (setDebug h false) t]
  rfl

end UbiProtocolHandler

/-! ## C14: the get-value query -/

namespace Ubidots

variable {F σ : Type}

theorem connectLoop_trace (C : TCPClient σ) :
    ∀ (n i : Nat) (p : σ × List Event),
      ∃ k, k ≤ n ∧
        (connectLoop (traced C) n p i).1.2 = p.2 ++ List.replicate k Event.connect := by
  intro n
  induction n with
  | zero => intro i p; exact ⟨0, Nat.le_refl 0, by simp [connectLoop, traced]⟩
  | succ n ih =>
    intro i p
    by_cases hc : ((traced C).connected p).1 = false ∧ i < 6
    · obtain ⟨k, hk, hr⟩ := ih (i + 1) ((traced C).connect ((traced C).connected p).2)
      refine ⟨k + 1, by omega, ?_⟩
      simp only [connectLoop, hc, and_self, if_true]
      rw [hr, List.replicate_succ]
      simp [traced]
    · refine ⟨0, by omega, ?_⟩
      simp only [connectLoop, hc, if_false]
      simp [traced]

theorem writeIfConnected_trace (C : TCPClient σ) (p : σ × List Event) (allData : String) :
    (writeIfConnected (traced C) p allData).2 = p.2
      ∨ (writeIfConnected (traced C) p allData).2 = p.2 ++ [Event.println allData] := by
  unfold writeIfConnected
  by_cases hc : ((traced C).connected p).1 = true
  · right; simp only [hc, if_true]; rfl
  · left; simp only [hc, if_false]; rfl

/-- C14. The text `getValueWithDatasource` formats is `Particle/1.0|LV|`, the
token, `|`, `dsTag`, `:`, `idName`, `|end`. Whenever the call returns, the calls
recorded on the socket are at most six `connect` followed by at most one
`println`, of exactly that text; and the value returned and the socket do not
depend on the readings stored or on their number. -/
theorem getValueWithDatasource_query (toFloat : String → F) (C : TCPClient σ) (fuel : Nat)
    (u : Client F (σ × List Event)) (dsTag idName : String) (val : Nat → Value F)
    (currentValue : Nat) :
    getValueQuery u._token dsTag idName
      = "Particle/1.0|LV|" ++ u._token ++ "|" ++ dsTag ++ ":" ++ idName ++ "|end"
    ∧ (∀ r, getValueWithDatasource toFloat (traced C) fuel u dsTag idName = some r →
        ∃ k, k ≤ 6 ∧
          (r.2._client.2 = u._client.2 ++ List.replicate k Event.connect
            ∨ r.2._client.2 = u._client.2 ++ List.replicate k Event.connect
                ++ [Event.println
                  ("Particle/1.0|LV|" ++ u._token ++ "|" ++ dsTag ++ ":" ++ idName
                    ++ "|end")]))
    ∧ (getValueWithDatasource toFloat (traced C) fuel
          { u with val := val, currentValue := currentValue } dsTag idName).map
        (fun r => (r.1, r.2._client))
      = (getValueWithDatasource toFloat (traced C) fuel u dsTag idName).map
        (fun r => (r.1, r.2._client)) := by
  refine ⟨rfl, ?_, ?_⟩
  swap
  · simp only [getValueWithDatasource]
    cases waitLoop (traced C) fuel
        (writeIfConnected (traced C) (connectLoop (traced C) 6 u._client 0).1
          (getValueQuery u._token dsTag idName)) 50000 with
    | none => rfl
    | some w =>
      obtain ⟨s3, j⟩ := w
      simp only
      cases drainLoop (traced C) fuel s3 "" with
      | none => rfl
      | some d => rfl
  intro r hr
  obtain ⟨k, hk, hc⟩ := connectLoop_trace C 6 0 u._client
  refine ⟨k, hk, ?_⟩
  simp only [getValueWithDatasource] at hr
  split at hr
  · exact absurd hr (by simp)
  · next s3 j hw =>
    split at hr
    · exact absurd hr (by simp)
    · next s4 resp hd =>
      have h3 := waitLoop_trace C _ _ _ _ hw
      have h4 := drainLoop_trace C _ _ _ _ hd
      have e : r.2._client.2 = s4.2 := by
        cases hr; rfl
      rw [e, h4, h3]
      rcases writeIfConnected_trace C (connectLoop (traced C) 6 u._client 0).1
        (getValueQuery u._token dsTag idName) with hw1 | hw1
      · left; rw [hw1, hc]
      · right; rw [hw1, hc]; rfl

theorem getValueWithDatasource_query_witness :
    getValueWithDatasource id (traced wireClient) 7 (tracedClient okWire) "dev" "temp"
        = some ("42.7",
            { tracedClient okWire with
              currentValue := 0,
              _client := ({ up := false, reachable := true, reply := "OK|42.7".data,
                            inbox := [], outbox := ["Particle/1.0|LV|tok|dev:temp|end"],
                            connectCalls := 1 },
                [Event.connect, Event.println "Particle/1.0|LV|tok|dev:temp|end"]) })
      ∧ ∃ k, k ≤ 6 ∧
          ([Event.connect, Event.println "Particle/1.0|LV|tok|dev:temp|end"]
              = [] ++ List.replicate k Event.connect
            ∨ [Event.connect, Event.println "Particle/1.0|LV|tok|dev:temp|end"]
              = [] ++ List.replicate k Event.connect
                ++ [Event.println ("Particle/1.0|LV|" ++ "tok" ++ "|" ++ "dev" ++ ":"
                    ++ "temp" ++ "|end")]) :=
  ⟨rfl,
    (getValueWithDatasource_query id wireClient 7 (tracedClient okWire) "dev" "temp"
      (fun _ => { idName := "", idValue := "", contextOne := none }) 0).2.1 _ rfl⟩

end Ubidots

/-! ## C15: the size of the payload -/

theorem length_intercalate_cons (s : String) :
    ∀ (l : List String) (a : String),
      (String.intercalate s (a :: l)).length
        = ((a :: l).map String.length).sum + s.length * l.length := by
  intro l
  induction l with
  | nil => intro a; simp [intercalate_singleton]
  | cons b l ih =>
    intro a
    rw [intercalate_cons_cons, String.length_append, String.length_append, ih b]
    simp only [List.map_cons, List.sum_cons, List.length_cons]
    rw [Nat.mul_succ]
    omega

theorem length_intercalate (s : String) (l : List String) :
    (String.intercalate s l).length
      = (l.map String.length).sum + s.length * (l.length - 1) := by
  cases l with
  | nil => rfl
  | cons a l => rw [length_intercalate_cons]; simp

theorem tcpHeader_length (agent token dl dn : String) :
    (Spec.tcpHeader agent token dl dn).length = Spec.tcpHeaderSize agent token dl dn := by
  simp only [Spec.tcpHeader, Spec.tcpHeaderSize, String.length_append]
  rfl

theorem tcpContext_length (c : Option String) :
    (Spec.tcpContext c).length = Spec.tcpContextSize c := by
  cases c with
  | none => rfl
  | some c =>
    simp only [Spec.tcpContext, Spec.tcpContextSize, String.length_append]
    rfl

theorem tcpEntry_length {F : Type} (fmt : F → String) (d : UbiProtocolHandler.Value F) :
    (Spec.tcpEntry fmt d).length = Spec.tcpEntrySize fmt d := by
  simp only [Spec.tcpEntry, Spec.tcpEntrySize, String.length_append, tcpContext_length,
    Spec.tcpTimestamp]
  by_cases hs : d.dot_timestamp_seconds = 0
  · simp only [hs, if_true]; rfl
  · simp only [hs, if_false, String.length_append]
    rfl

theorem legacyEntry_length {F : Type} (fmt : F → String) (v : Ubidots.Value F) :
    (Spec.legacyEntry fmt v).length = Spec.legacyEntrySize fmt v := by
  simp only [Spec.legacyEntry, Spec.legacyEntrySize, String.length_append, tcpContext_length]
  rfl

theorem httpMember_length {F : Type} (fmt : F → String) (d : UbiProtocolHandler.Value F) :
    (Spec.httpMember fmt d).length = Spec.httpMemberSize fmt d := by
  simp only [Spec.httpMember, Spec.httpMemberSize, String.length_append, Spec.httpTimestamp]
  cases hc : d.dot_context with
  | none =>
    by_cases hs : d.dot_timestamp_seconds = 0
    · simp only [hs, if_true, Spec.httpContext]; rfl
    · simp only [hs, if_false, String.length_append, Spec.httpContext]; rfl
  | some c =>
    by_cases hs : d.dot_timestamp_seconds = 0
    · simp only [hs, if_true, Spec.httpContext, String.length_append]; rfl
    · simp only [hs, if_false, String.length_append, Spec.httpContext]; rfl

theorem sum_map_length {α : Type} (f : α → String) (g : α → Nat)
    (h : ∀ a, (f a).length = g a) (l : List α) :
    ((l.map f).map String.length).sum = (l.map g).sum := by
  induction l with
  | nil => rfl
  | cons a l ih => simp only [List.map_cons, List.sum_cons, ih, h]

theorem tcpPayload_length {F : Type} (agent token dl dn : String) (fmt : F → String)
    (ds : List (UbiProtocolHandler.Value F)) :
    (Spec.tcpPayload agent token dl dn fmt ds).length = Spec.tcpSize agent token dl dn fmt ds := by
  simp only [Spec.tcpPayload, Spec.tcpSize, String.length_append, tcpHeader_length,
    length_intercalate, sum_map_length _ _ (tcpEntry_length fmt), List.length_map]
  have h1 : (",":String).length = 1 := rfl
  have h2 : ("|end":String).length = 4 := rfl
  rw [h1, h2]
  omega

theorem httpPayload_length {F : Type} (fmt : F → String)
    (ds : List (UbiProtocolHandler.Value F)) :
    (Spec.httpPayload fmt ds).length = Spec.httpSize fmt ds := by
  simp only [Spec.httpPayload, Spec.httpSize, String.length_append,
    length_intercalate, sum_map_length _ _ (httpMember_length fmt), List.length_map]
  have h1 : (",":String).length = 1 := rfl
  have h2 : ("\x7b":String).length = 1 := rfl
  have h3 : ("\x7d":String).length = 1 := rfl
  rw [h1, h2, h3]
  omega

theorem legacyPayload_length {F : Type} (agent token pId dsName : String) (fmt : F → String)
    (vs : List (Ubidots.Value F)) :
    (Spec.legacyPayload agent token pId dsName fmt vs).length
      = Spec.legacySize agent token pId dsName fmt vs := by
  simp only [Spec.legacyPayload, Spec.legacySize, String.length_append, tcpHeader_length,
    length_intercalate, sum_map_length _ _ (legacyEntry_length fmt), List.length_map]
  have h1 : (",":String).length = 1 := rfl
  have h2 : ("|end":String).length = 4 := rfl
  rw [h1, h2]
  omega

namespace Ubidots

variable {F σ : Type}

theorem readings_succ (val : Nat → Value F) (i n : Nat) :
    readings val i (n + 1) = val i :: readings val (i + 1) n := by
  unfold readings
  rw [List.range_succ_eq_map]
  simp only [List.map_cons, List.map_map, Nat.add_zero]
  congr 1
  apply List.map_congr_left
  intro j _
  simp only [Function.comp, Nat.succ_eq_add_one]
  congr 1
  omega

theorem sendAllLoop_run (fmt : F → String) (val : Nat → Value F) :
    ∀ (n i : Nat) (a : String),
      sendAllLoop fmt val (i + n) n i a
        = (a ++ String.intercalate "," ((readings val i n).map (Spec.legacyEntry fmt)),
            i + n) := by
  intro n
  induction n with
  | zero =>
    intro i a
    show (a, i + 0) = (a ++ "", i + 0)
    rw [String.append_empty]
  | succ n ih =>
    intro i a
    have hlt : i < i + (n + 1) := by omega
    have e : i + (n + 1) = (i + 1) + n := by omega
    have hentry : (match (val i).contextOne with
        | some c => a ++ (val i).idName ++ ":" ++ fmt (val i).idValue ++ "$" ++ c
        | none => a ++ (val i).idName ++ ":" ++ fmt (val i).idValue)
        = a ++ Spec.legacyEntry fmt (val i) := by
      unfold Spec.legacyEntry
      cases (val i).contextOne <;> simp [Spec.tcpContext, String.append_assoc]
    simp only [sendAllLoop, hlt, if_true, hentry]
    rw [e, ih (i + 1), readings_succ]
    cases n with
    | zero =>
      simp only [Nat.add_zero, Nat.lt_irrefl, if_false, readings, List.range_zero,
        List.map_nil, intercalate_singleton]
      show (a ++ Spec.legacyEntry fmt (val i) ++ "", i + 1)
        = (a ++ Spec.legacyEntry fmt (val i), i + 1)
      rw [String.append_empty]
    | succ m =>
      have h2 : i + 1 < i + 1 + (m + 1) := by omega
      simp only [h2, if_true]
      rw [readings_succ val (i + 1) m]
      simp only [List.map_cons, intercalate_cons_cons, String.append_assoc]

theorem sendAllPayload_eq_spec (USER_AGENT : String) (fmt : F → String) (u : Client F σ) :
    (sendAllPayload USER_AGENT fmt u).1
      = Spec.legacyPayload USER_AGENT u._token u._pId u._dsName fmt
          (readings u.val 0 u.currentValue) := by
  have h := sendAllLoop_run fmt u.val u.currentValue 0
    (USER_AGENT ++ "|POST|" ++ u._token ++ "|" ++ u._pId ++ ":" ++ u._dsName ++ "=>")
  simp only [Nat.zero_add] at h
  simp only [sendAllPayload, h, Spec.legacyPayload, Spec.tcpHeader]

end Ubidots

namespace UbiProtocolHandler

variable {F Φ τ : Type}

theorem send_payload_spec (K : UbiConstants F) (fmt : F → String) (P : UbiProtocol F Φ τ)
    (fuel : Nat) (h : Handler F) (t : τ) (dl dn : String) (flags : Φ)
    (hcap : K.MAX_VALUES ≤ 255) (h1 : 1 ≤ h._current_value)
    (hN : h._current_value ≤ K.MAX_VALUES)
    (hms : ∀ j, j < h._current_value → (h._dots j).dot_timestamp_millis < 2147483648)
    (hfuel : h._current_value ≤ fuel) :
    ∃ r, send K fmt P fuel h t dl dn flags = some r
      ∧ r.payload =
        if h._iot_protocol = IotProtocol.UBI_TCP ∨ h._iot_protocol = IotProtocol.UBI_UDP then
          Spec.tcpPayload K.USER_AGENT h._token dl dn fmt (slots h._dots 0 h._current_value)
        else Spec.httpPayload fmt (slots h._dots 0 h._current_value) := by
  obtain ⟨n, hn⟩ : ∃ n, h._current_value = n + 1 := ⟨h._current_value - 1, by omega⟩
  have hm : ∀ v ∈ slots h._dots 0 (n + 1), v.dot_timestamp_millis < 2147483648 := by
    intro v hv
    unfold slots at hv
    simp only [List.mem_map, List.mem_range, Nat.zero_add] at hv
    obtain ⟨j, hj, rfl⟩ := hv
    exact hms j (by omega)
  unfold send
  by_cases hp : h._iot_protocol = IotProtocol.UBI_TCP ∨ h._iot_protocol = IotProtocol.UBI_UDP
  · rw [if_pos hp, if_pos hp,
      buildTcpPayload_run K fmt h dl dn fuel n hn (by omega) (by omega) hm, hn]
    exact ⟨_, rfl, rfl⟩
  · rw [if_neg hp, if_neg hp, buildHttpPayload_run fmt h fuel n hn (by omega) (by omega) hm, hn]
    exact ⟨_, rfl, rfl⟩

end UbiProtocolHandler

set_option maxRecDepth 100000 in
/-- C15, as stated, fails: with `MAX_BUFFER_SIZE = 700` and a single reading whose
label has 700 characters, the payload `send` builds has 745 characters (746 with
its NUL) and the payload of `sendAll` 749 (750 with its NUL), both above 700. -/
theorem payload_exceeds_buffer :
    (UbiProtocolHandler.send sampleConstants fmtMicro countingTransport 1 longTcp 0
        "dev" "name" ()).map (fun r => r.payload.length + 1) = some 746
    ∧ ¬ 746 ≤ sampleConstants.MAX_BUFFER_SIZE
    ∧ longTcp._current_value ≤ sampleConstants.MAX_VALUES
    ∧ (Ubidots.sendAllPayload "Particle/1.0" fmtMicro longClient).1.length + 1 = 750
    ∧ ¬ 750 ≤ 700 := by
  refine ⟨by decide, by decide, by decide, by decide, by decide⟩

/-- C15, amended. The serializers do not check the size of what they write. For a
handler holding `1 ≤ N ≤ MAX_VALUES` readings, the payload `send` builds has as
many characters as the sizes of its parts add up to (`Spec.tcpSize` under TCP and
UDP, `Spec.httpSize` otherwise), so with its NUL it fits `MAX_BUFFER_SIZE`
whenever the caller keeps that sum below `MAX_BUFFER_SIZE`; likewise the payload
of `sendAll` has `Spec.legacySize` characters and fits the 700 characters of its
buffer whenever that sum is below 700. -/
theorem payload_fits_when_bounded {F Φ τ σ : Type} (K : UbiConstants F) (fmt : F → String)
    (P : UbiProtocolHandler.UbiProtocol F Φ τ) (fuel : Nat) (h : UbiProtocolHandler.Handler F)
    (t : τ) (device_label device_name : String) (flags : Φ) (USER_AGENT : String)
    (u : Ubidots.Client F σ)
    (hcap : K.MAX_VALUES ≤ 255) (h1 : 1 ≤ h._current_value)
    (hN : h._current_value ≤ K.MAX_VALUES)
    (hms : ∀ j, j < h._current_value → (h._dots j).dot_timestamp_millis < 2147483648)
    (hfuel : h._current_value ≤ fuel)
    (hfit : (if h._iot_protocol = UbiProtocolHandler.IotProtocol.UBI_TCP
              ∨ h._iot_protocol = UbiProtocolHandler.IotProtocol.UBI_UDP then
            Spec.tcpSize K.USER_AGENT h._token device_label device_name fmt
              (UbiProtocolHandler.slots h._dots 0 h._current_value)
          else Spec.httpSize fmt (UbiProtocolHandler.slots h._dots 0 h._current_value)) + 1
        ≤ K.MAX_BUFFER_SIZE)
    (ufit : Spec.legacySize USER_AGENT u._token u._pId u._dsName fmt
        (Ubidots.readings u.val 0 u.currentValue) + 1 ≤ 700) :
    (∃ r, UbiProtocolHandler.send K fmt P fuel h t device_label device_name flags = some r
      ∧ r.payload.length =
          (if h._iot_protocol = UbiProtocolHandler.IotProtocol.UBI_TCP
              ∨ h._iot_protocol = UbiProtocolHandler.IotProtocol.UBI_UDP then
            Spec.tcpSize K.USER_AGENT h._token device_label device_name fmt
              (UbiProtocolHandler.slots h._dots 0 h._current_value)
          else Spec.httpSize fmt (UbiProtocolHandler.slots h._dots 0 h._current_value))
      ∧ r.payload.length + 1 ≤ K.MAX_BUFFER_SIZE)
    ∧ (Ubidots.sendAllPayload USER_AGENT fmt u).1.length
        = Spec.legacySize USER_AGENT u._token u._pId u._dsName fmt
            (Ubidots.readings u.val 0 u.currentValue)
    ∧ (Ubidots.sendAllPayload USER_AGENT fmt u).1.length + 1 ≤ 700 := by
  obtain ⟨r, hr, hp⟩ := UbiProtocolHandler.send_payload_spec K fmt P fuel h t device_label
    device_name flags hcap h1 hN hms hfuel
  have hlen : r.payload.length =
      (if h._iot_protocol = UbiProtocolHandler.IotProtocol.UBI_TCP
          ∨ h._iot_protocol = UbiProtocolHandler.IotProtocol.UBI_UDP then
        Spec.tcpSize K.USER_AGENT h._token device_label device_name fmt
          (UbiProtocolHandler.slots h._dots 0 h._current_value)
      else Spec.httpSize fmt (UbiProtocolHandler.slots h._dots 0 h._current_value)) := by
    rw [hp]
    split
    · exact tcpPayload_length _ _ _ _ _ _
    · exact httpPayload_length _ _
  have ulen := congrArg String.length (Ubidots.sendAllPayload_eq_spec USER_AGENT fmt u)
  rw [legacyPayload_length] at ulen
  exact ⟨⟨r, hr, hlen, by rw [hlen]; exact hfit⟩, ulen, by rw [ulen]; exact ufit⟩

theorem payload_fits_when_bounded_witness :
    (sampleConstants.MAX_VALUES ≤ 255 ∧ 1 ≤ fullTcp._current_value
        ∧ fullTcp._current_value ≤ sampleConstants.MAX_VALUES
        ∧ (∀ j, j < fullTcp._current_value →
            (fullTcp._dots j).dot_timestamp_millis < 2147483648)
        ∧ fullTcp._current_value ≤ 2
        ∧ Spec.tcpSize sampleConstants.USER_AGENT fullTcp._token "dev" "name" fmtMicro
            (UbiProtocolHandler.slots fullTcp._dots 0 fullTcp._current_value) + 1
          ≤ sampleConstants.MAX_BUFFER_SIZE
        ∧ Spec.legacySize "Particle/1.0" fullClient._token fullClient._pId fullClient._dsName
            fmtMicro (Ubidots.readings fullClient.val 0 fullClient.currentValue) + 1 ≤ 700)
      ∧ (∃ r, UbiProtocolHandler.send sampleConstants fmtMicro countingTransport 2 fullTcp 0
            "dev" "name" () = some r
          ∧ r.payload.length + 1 ≤ sampleConstants.MAX_BUFFER_SIZE)
      ∧ (Ubidots.sendAllPayload "Particle/1.0" fmtMicro fullClient).1.length + 1 ≤ 700 :=
  ⟨⟨by decide, by decide, by decide, by decide, by decide, by decide, by decide⟩,
    (payload_fits_when_bounded sampleConstants fmtMicro countingTransport 2 fullTcp 0
      "dev" "name" () "Particle/1.0" fullClient (by decide) (by decide) (by decide)
      (by decide) (by decide) (by decide) (by decide)).1.imp (fun _ hr => ⟨hr.1, hr.2.2⟩),
    (payload_fits_when_bounded sampleConstants fmtMicro countingTransport 2 fullTcp 0
      "dev" "name" () "Particle/1.0" fullClient (by decide) (by decide) (by decide)
      (by decide) (by decide) (by decide) (by decide)).2.2⟩

/-! ## C16: the legacy and the current delimited-text serializers -/

namespace UbiProtocolHandler

variable {F Φ τ : Type}

theorem tcpAppendDot_eq_of_no_seconds (fmt : F → String) (p : String) (d : Value F)
    (hs : d.dot_timestamp_seconds = 0) :
    tcpAppendDot fmt p d = p ++ Spec.tcpEntry fmt d := by
  unfold tcpAppendDot Spec.tcpEntry Spec.tcpTimestamp
  cases hc : d.dot_context <;> simp [hs, Spec.tcpContext, String.append_assoc]

theorem tcpLoop_run_of (fmt : F → String) (dots : Nat → Value F) :
    ∀ (n fuel i : Nat) (p : String), i + (n + 1) ≤ 255 → n + 1 ≤ fuel →
      (∀ j, i ≤ j → j < i + (n + 1) →
        ∀ q, tcpAppendDot fmt q (dots j) = q ++ Spec.tcpEntry fmt (dots j)) →
      tcpLoop fmt dots fuel i (i + (n + 1)) p =
        some (p ++ String.intercalate "," ((slots dots i (n + 1)).map (Spec.tcpEntry fmt))
          ++ "|end", 0) := by
  intro n
  induction n with
  | zero =>
    intro fuel i p hb hf hm
    obtain ⟨f, rfl⟩ : ∃ f, fuel = f + 1 := ⟨fuel - 1, by omega⟩
    have hi : (i + 1) % 256 = i + 1 := Nat.mod_eq_of_lt (by omega)
    simp only [tcpLoop, Nat.zero_add, hi, Nat.lt_irrefl, if_false,
      show i < i + 1 from Nat.lt_succ_self i, if_true]
    rw [tcpLoop_exit _ _ _ _ _ _ (by omega), hm i (by omega) (by omega)]
    rw [slots_succ, slots_zero]
    rfl
  | succ n ih =>
    intro fuel i p hb hf hm
    obtain ⟨f, rfl⟩ : ∃ f, fuel = f + 1 := ⟨fuel - 1, by omega⟩
    have hi : (i + 1) % 256 = i + 1 := Nat.mod_eq_of_lt (by omega)
    have hlt : i < i + (n + 1 + 1) := by omega
    have hlt2 : i + 1 < i + (n + 1 + 1) := by omega
    simp only [tcpLoop, hi, hlt, hlt2, if_true]
    have hcv : i + (n + 1 + 1) = (i + 1) + (n + 1) := by omega
    rw [hcv, ih f (i + 1) _ (by omega) (by omega) (fun j h1 h2 => hm j (by omega) (by omega)),
      hm i (by omega) (by omega)]
    rw [slots_succ dots i (n + 1), slots_succ dots (i + 1) n]
    simp only [List.map_cons, intercalate_cons_cons, String.append_assoc]

end UbiProtocolHandler

namespace Ubidots

variable {F σ : Type}

theorem readings_snoc (val : Nat → Value F) (c : Nat) :
    readings val 0 (c + 1) = readings val 0 c ++ [val c] := by
  simp [readings, List.range_succ]

theorem readings_congr (v1 v2 : Nat → Value F) (c : Nat) (h : ∀ j, j < c → v1 j = v2 j) :
    readings v1 0 c = readings v2 0 c := by
  unfold readings
  apply List.map_congr_left
  intro j hj
  simp only [Nat.zero_add]
  exact h j (List.mem_range.mp hj)

theorem legacy_addValue_fit (MAX_VALUES : Nat) (u : Client F σ) (v : Value F)
    (hc : u.currentValue < MAX_VALUES) :
    addValue MAX_VALUES u v =
      { u with val := fun j => if j = u.currentValue then v else u.val j,
               currentValue := u.currentValue + 1 } := by
  unfold addValue add
  have : ¬ u.currentValue + 1 > MAX_VALUES := by omega
  simp [this]

theorem legacy_addAll_fit (MAX_VALUES : Nat) :
    ∀ (vs : List (Value F)) (u : Client F σ),
      u.currentValue + vs.length ≤ MAX_VALUES →
      (addAll MAX_VALUES u vs).currentValue = u.currentValue + vs.length ∧
      readings (addAll MAX_VALUES u vs).val 0 (u.currentValue + vs.length)
        = readings u.val 0 u.currentValue ++ vs ∧
      (addAll MAX_VALUES u vs)._token = u._token ∧
      (addAll MAX_VALUES u vs)._pId = u._pId ∧
      (addAll MAX_VALUES u vs)._dsName = u._dsName := by
  intro vs
  induction vs with
  | nil => intro u _; exact ⟨rfl, by simp [addAll], rfl, rfl, rfl⟩
  | cons v vs ih =>
    intro u hb
    simp only [List.length_cons] at hb
    have hfit := legacy_addValue_fit MAX_VALUES u v (by omega)
    have hcv : (addValue MAX_VALUES u v).currentValue = u.currentValue + 1 := by rw [hfit]
    obtain ⟨i1, i2, i3, i4, i5⟩ := ih (addValue MAX_VALUES u v) (by rw [hcv]; omega)
    have e : addAll MAX_VALUES u (v :: vs) = addAll MAX_VALUES (addValue MAX_VALUES u v) vs :=
      rfl
    rw [e, List.length_cons]
    refine ⟨by rw [i1, hcv]; omega, ?_, by rw [i3, hfit], by rw [i4, hfit], by rw [i5, hfit]⟩
    have hlen : u.currentValue + (vs.length + 1)
        = (addValue MAX_VALUES u v).currentValue + vs.length := by
      rw [hcv]; omega
    rw [hlen, i2, hcv, readings_snoc]
    have hs : readings (addValue MAX_VALUES u v).val 0 u.currentValue
        = readings u.val 0 u.currentValue := by
      apply readings_congr
      intro j hj
      rw [hfit]
      have : j ≠ u.currentValue := by omega
      simp [this]
    have hv : (addValue MAX_VALUES u v).val u.currentValue = v := by rw [hfit]; simp
    rw [hs, hv]
    simp

end Ubidots

theorem legacyEntry_toLegacy {F : Type} (fmt : F → String) (d : UbiProtocolHandler.Value F)
    (hs : d.dot_timestamp_seconds = 0) :
    Spec.legacyEntry fmt (toLegacy d) = Spec.tcpEntry fmt d := by
  simp only [Spec.legacyEntry, Spec.tcpEntry, toLegacy, Spec.tcpTimestamp, hs, if_true]
  exact (String.append_empty _).symm

/-- C16. For every list of `N` readings without timestamp seconds (whatever their
milliseconds), `1 ≤ N` and `N` within both capacities (the handler's within the
range of its `uint8_t` loop counter), the payload `buildTcpPayload` writes for
`device_label = _pId` and `device_name = _dsName` after the readings were added
to a freshly built handler is the payload `sendAll` builds after the same labels,
values and contexts were added to a legacy client with an empty buffer, the same
token and the same agent. -/
theorem legacy_and_current_agree {F σ : Type} (K : UbiConstants F) (fmt : F → String)
    (MAX_VALUES : Nat) (proto : UbiProtocolHandler.IotProtocol)
    (dots : Nat → UbiProtocolHandler.Value F) (dirty debug : Bool) (u : Ubidots.Client F σ)
    (vs : List (UbiProtocolHandler.Value F)) (fuel : Nat)
    (hcap : K.MAX_VALUES ≤ 255) (h1 : 1 ≤ vs.length) (hN : vs.length ≤ K.MAX_VALUES)
    (hL : vs.length ≤ MAX_VALUES) (hs : ∀ v ∈ vs, v.dot_timestamp_seconds = 0)
    (hu : u.currentValue = 0) (hfuel : vs.length ≤ fuel) :
    (UbiProtocolHandler.buildTcpPayload K fmt fuel
        (UbiProtocolHandler.addAll K
          (UbiProtocolHandler.builder u._token proto dots dirty debug) vs)
        u._pId u._dsName).map Prod.fst
      = some (Ubidots.sendAllPayload K.USER_AGENT fmt
          (Ubidots.addAll MAX_VALUES u (vs.map toLegacy))).1 := by
  obtain ⟨a1, a2, a3, _⟩ :=
    UbiProtocolHandler.addAll_builder K u._token proto dots dirty debug vs hN
  obtain ⟨b1, b2, b3, b4, b5⟩ := Ubidots.legacy_addAll_fit MAX_VALUES (vs.map toLegacy) u
    (by rw [hu, List.length_map]; omega)
  rw [hu, Nat.zero_add, List.length_map] at b1 b2
  have b2' : Ubidots.readings (Ubidots.addAll MAX_VALUES u (vs.map toLegacy)).val 0 vs.length
      = vs.map toLegacy := by
    rw [b2]; simp [Ubidots.readings]
  rw [Ubidots.sendAllPayload_eq_spec, b1, b2', b3, b4, b5]
  obtain ⟨n, hn⟩ : ∃ n, vs.length = n + 1 := ⟨vs.length - 1, by omega⟩
  have hloop := UbiProtocolHandler.tcpLoop_run_of fmt
    (UbiProtocolHandler.addAll K
      (UbiProtocolHandler.builder u._token proto dots dirty debug) vs)._dots n fuel 0
    (K.USER_AGENT ++ "|POST|" ++ u._token ++ "|" ++ u._pId ++ ":" ++ u._dsName ++ "=>")
    (by omega) (by omega)
    (by
      intro j _ hj q
      apply UbiProtocolHandler.tcpAppendDot_eq_of_no_seconds
      apply hs
      have hmem : (UbiProtocolHandler.addAll K
          (UbiProtocolHandler.builder u._token proto dots dirty debug) vs)._dots j
          ∈ UbiProtocolHandler.slots (UbiProtocolHandler.addAll K
            (UbiProtocolHandler.builder u._token proto dots dirty debug) vs)._dots 0
            vs.length := by
        unfold UbiProtocolHandler.slots
        simp only [List.mem_map, List.mem_range, Nat.zero_add]
        exact ⟨j, by omega, rfl⟩
      rw [a2] at hmem
      exact hmem)
  rw [Nat.zero_add, ← hn, a2] at hloop
  unfold UbiProtocolHandler.buildTcpPayload
  simp only [a1, a3, hloop, Option.map_some', Option.some.injEq]
  simp only [Spec.legacyPayload, Spec.tcpHeader, List.map_map]
  congr 2
  congr 1
  apply List.map_congr_left
  intro d hd
  exact (legacyEntry_toLegacy fmt d (hs d hd)).symm

theorem legacy_and_current_agree_witness :
    (sampleConstants.MAX_VALUES ≤ 255 ∧ 1 ≤ [tempDot, plainDot].length
        ∧ [tempDot, plainDot].length ≤ sampleConstants.MAX_VALUES
        ∧ [tempDot, plainDot].length ≤ 2
        ∧ (∀ v ∈ [tempDot, plainDot], v.dot_timestamp_seconds = 0)
        ∧ (freshClient deadWire).currentValue = 0
        ∧ [tempDot, plainDot].length ≤ 2)
      ∧ (UbiProtocolHandler.buildTcpPayload sampleConstants fmtMicro 2
          (UbiProtocolHandler.addAll sampleConstants
            (UbiProtocolHandler.builder "tok" UbiProtocolHandler.IotProtocol.UBI_TCP
              (fun _ => blankDot) false false) [tempDot, plainDot])
          "dev" "Particle").map Prod.fst
        = some (Ubidots.sendAllPayload "Particle/1.0" fmtMicro
            (Ubidots.addAll 2 (freshClient deadWire)
              ([tempDot, plainDot].map toLegacy))).1 :=
  ⟨⟨by decide, by decide, by decide, by decide, by decide, by decide, by decide⟩,
    legacy_and_current_agree sampleConstants fmtMicro 2
      UbiProtocolHandler.IotProtocol.UBI_TCP (fun _ => blankDot) false false
      (freshClient deadWire) [tempDot, plainDot] 2 (by decide) (by decide) (by decide)
      (by decide) (by decide) (by decide) (by decide)⟩

/-! ## C17: the response without the marker -/

theorem indexOfAux_absent (pat : List Char) :
    ∀ (s : List Char) (k : Nat), ¬ pat <:+: s → indexOfAux pat s k = -1 := by
  intro s
  induction s with
  | nil => intro k _; rfl
  | cons c cs ih =>
    intro k h
    have hp : pat.isPrefixOf (c :: cs) = false := by
      cases hb : pat.isPrefixOf (c :: cs) with
      | false => rfl
      | true =>
        have hpre : pat <+: c :: cs := ( List.isPrefixOf_iff_prefix).mp hb
        exact absurd ( List.IsPrefix.isInfix hpre) h
    have ht : ¬ pat <:+: cs := fun hi => h (List.infix_cons hi)
    simp only [indexOfAux, hp, Bool.false_eq_true, if_false]
    exact ih (k + 1) ht

theorem indexOfAux_first (pat : List Char) (hne : pat ≠ []) (post : List Char) :
    ∀ (pre s : List Char) (k : Nat), s = pre ++ pat ++ post →
      (∀ j, j < pre.length → ¬ pat <+: s.drop j) →
      indexOfAux pat s k = ((k + pre.length : Nat) : Int) := by
  intro pre
  induction pre with
  | nil =>
    intro s k hs _
    obtain ⟨c, cs, hc⟩ : ∃ c cs, s = c :: cs := by
      cases hp : pat with
      | nil => exact absurd hp hne
      | cons a as => exact ⟨a, as ++ post, by rw [hs, hp]; rfl⟩
    have hb : pat.isPrefixOf (c :: cs) = true := by
      rw [← hc, hs]
      exact ( List.isPrefixOf_iff_prefix).mpr ⟨post, by simp⟩
    rw [hc]
    simp only [indexOfAux, hb, if_true, List.length_nil, Nat.add_zero]
  | cons a pre ih =>
    intro s k hs hfirst
    have hs2 : s = a :: (pre ++ pat ++ post) := by rw [hs]; rfl
    have hp : pat.isPrefixOf (a :: (pre ++ pat ++ post)) = false := by
      cases hb : pat.isPrefixOf (a :: (pre ++ pat ++ post)) with
      | false => rfl
      | true =>
        have h0 := hfirst 0 (by simp)
        rw [List.drop_zero, hs2] at h0
        exact absurd (( List.isPrefixOf_iff_prefix).mp hb) h0
    rw [hs2]
    simp only [indexOfAux, hp, Bool.false_eq_true, if_false]
    rw [ih (pre ++ pat ++ post) (k + 1) rfl (by
      intro j hj
      have h1 := hfirst (j + 1) (by simp only [List.length_cons]; omega)
      rw [hs2, List.drop_succ_cons] at h1
      exact h1)]
    simp only [List.length_cons]
    congr 1
    omega

namespace Ubidots

variable {F : Type}

/-- C17. For every response that does not contain `OK|`, `indexOf` answers `-1`,
the start offset is `3 + (-1) = 2` and the value returned is the conversion of
the response from character 2 on, not a sentinel: `xx7.5` gives the conversion of
`7.5`. When the first `OK|` starts at index `k`, the start offset is
`(3 + k) mod 256`, since it is stored in a `uint8_t`. -/
theorem parseResponse_marker_absent (toFloat : String → F) (response : String) :
    (¬ "OK|".data <:+: response.data →
      indexOf response "OK|" = -1
      ∧ bodyPosinit response = 2
      ∧ parseResponse toFloat response = toFloat (substring response 2))
    ∧ parseResponse toFloat "xx7.5" = toFloat "7.5"
    ∧ (∀ pre post : List Char, response.data = pre ++ "OK|".data ++ post →
        (∀ j, j < pre.length → ¬ "OK|".data <+: response.data.drop j) →
        indexOf response "OK|" = (pre.length : Int)
        ∧ bodyPosinit response = (3 + pre.length) % 256) := by
  refine ⟨?_, ?_, ?_⟩
  · intro h
    have hi : indexOf response "OK|" = -1 := indexOfAux_absent _ _ 0 h
    have hb : bodyPosinit response = 2 := by
      unfold bodyPosinit
      rw [hi]
      rfl
    exact ⟨hi, hb, by unfold parseResponse; rw [hb]⟩
  · have hb : bodyPosinit "xx7.5" = 2 := by decide
    unfold parseResponse
    rw [hb]
    rfl
  · intro pre post hs hfirst
    have hi : indexOf response "OK|" = (pre.length : Int) := by
      have h := indexOfAux_first "OK|".data (by decide) post pre response.data 0 hs hfirst
      rw [Nat.zero_add] at h
      exact h
    refine ⟨hi, ?_⟩
    unfold bodyPosinit toUInt8
    rw [hi]
    omega

theorem parseResponse_marker_absent_witness :
    ¬ "OK|".data <:+: "error: no such variable".data
      ∧ indexOf "error: no such variable" "OK|" = -1
      ∧ bodyPosinit "error: no such variable" = 2
      ∧ parseResponse id "error: no such variable"
          = id (substring "error: no such variable" 2) :=
  ⟨by decide,
    (parseResponse_marker_absent id "error: no such variable").1 (by decide)⟩

end Ubidots

/-! ## C18: the delimited-text serialization is not injective -/

namespace UbiProtocolHandler

variable {F Φ τ : Type}

theorem buildTcpPayload_addAll_no_seconds (K : UbiConstants F) (fmt : F → String)
    (token : String) (proto : IotProtocol) (dots : Nat → Value F) (dirty debug : Bool)
    (vs : List (Value F)) (dl dn : String) (fuel : Nat)
    (hcap : K.MAX_VALUES ≤ 255) (h1 : 1 ≤ vs.length) (hN : vs.length ≤ K.MAX_VALUES)
    (hs : ∀ v ∈ vs, v.dot_timestamp_seconds = 0) (hfuel : vs.length ≤ fuel) :
    (buildTcpPayload K fmt fuel (addAll K (builder token proto dots dirty debug) vs)
        dl dn).map Prod.fst
      = some (Spec.tcpPayload K.USER_AGENT token dl dn fmt vs) := by
  obtain ⟨a1, a2, a3, _⟩ := addAll_builder K token proto dots dirty debug vs hN
  obtain ⟨n, hn⟩ : ∃ n, vs.length = n + 1 := ⟨vs.length - 1, by omega⟩
  have hloop := tcpLoop_run_of fmt (addAll K (builder token proto dots dirty debug) vs)._dots
    n fuel 0 (K.USER_AGENT ++ "|POST|" ++ token ++ "|" ++ dl ++ ":" ++ dn ++ "=>")
    (by omega) (by omega)
    (by
      intro j _ hj q
      apply tcpAppendDot_eq_of_no_seconds
      apply hs
      have hmem : (addAll K (builder token proto dots dirty debug) vs)._dots j
          ∈ slots (addAll K (builder token proto dots dirty debug) vs)._dots 0 vs.length := by
        unfold slots
        simp only [List.mem_map, List.mem_range, Nat.zero_add]
        exact ⟨j, by omega, rfl⟩
      rw [a2] at hmem
      exact hmem)
  rw [Nat.zero_add, ← hn, a2] at hloop
  unfold buildTcpPayload
  simp only [a1, a3, hloop, Option.map_some']
  rfl

/-- C18. The context is appended unescaped, so two buffers of different lengths
can give the same delimited-text payload: the single reading `a` with context
`x,b:2.000000`, and the two readings `a` with context `x` and `b` with a value
printed as `2.000000` and no context, added to freshly built handlers with the
same token and sent to the same device, both give
`<agent>|POST|<token>|<device>:<name>=>a:<value>$x,b:2.000000|end`. -/
theorem tcp_payload_not_injective (K : UbiConstants F) (fmt : F → String)
    (token : String) (proto : IotProtocol) (dots : Nat → Value F) (dirty debug : Bool)
    (device_label device_name : String) (fuel : Nat) (x y : F)
    (hcap : K.MAX_VALUES ≤ 255) (h2 : 2 ≤ K.MAX_VALUES) (hfuel : 2 ≤ fuel)
    (hy : fmt y = "2.000000") :
    [({ variable_label := "a", dot_value := x, dot_context := some "x,b:2.000000",
        dot_timestamp_seconds := 0, dot_timestamp_millis := 0 } : Value F)].length
      ≠ [({ variable_label := "a", dot_value := x, dot_context := some "x",
            dot_timestamp_seconds := 0, dot_timestamp_millis := 0 } : Value F),
          { variable_label := "b", dot_value := y, dot_context := none,
            dot_timestamp_seconds := 0, dot_timestamp_millis := 0 }].length
    ∧ (buildTcpPayload K fmt fuel
          (addAll K (builder token proto dots dirty debug)
            [{ variable_label := "a", dot_value := x, dot_context := some "x,b:2.000000",
               dot_timestamp_seconds := 0, dot_timestamp_millis := 0 }])
          device_label device_name).map Prod.fst
        = some (K.USER_AGENT ++ "|POST|" ++ token ++ "|" ++ device_label ++ ":"
            ++ device_name ++ "=>" ++ "a:" ++ fmt x ++ "$x,b:2.000000|end")
    ∧ (buildTcpPayload K fmt fuel
          (addAll K (builder token proto dots dirty debug)
            [{ variable_label := "a", dot_value := x, dot_context := some "x",
               dot_timestamp_seconds := 0, dot_timestamp_millis := 0 },
             { variable_label := "b", dot_value := y, dot_context := none,
               dot_timestamp_seconds := 0, dot_timestamp_millis := 0 }])
          device_label device_name).map Prod.fst
        = some (K.USER_AGENT ++ "|POST|" ++ token ++ "|" ++ device_label ++ ":"
            ++ device_name ++ "=>" ++ "a:" ++ fmt x ++ "$x,b:2.000000|end") := by
  refine ⟨by simp, ?_, ?_⟩
  · rw [buildTcpPayload_addAll_no_seconds K fmt token proto dots dirty debug _ device_label
      device_name fuel hcap (by simp) (by simp only [List.length_singleton]; omega)
      (by intro v hv; simp only [List.mem_singleton] at hv; subst hv; rfl)
      (by simp only [List.length_singleton]; omega)]
    simp only [Spec.tcpPayload, Spec.tcpHeader, List.map_cons, List.map_nil,
      intercalate_singleton, Spec.tcpEntry, Spec.tcpContext, Spec.tcpTimestamp, if_true,
      String.append_assoc, String.append_empty]
    rfl
  · rw [buildTcpPayload_addAll_no_seconds K fmt token proto dots dirty debug _ device_label
      device_name fuel hcap (by simp) (by simp only [List.length_cons, List.length_nil]; omega)
      (by
        intro v hv
        simp only [List.mem_cons, List.mem_singleton, List.not_mem_nil, or_false] at hv
        rcases hv with hv | hv <;> subst hv <;> rfl)
      (by simp only [List.length_cons, List.length_nil]; omega)]
    simp only [Spec.tcpPayload, Spec.tcpHeader, List.map_cons, List.map_nil,
      intercalate_cons_cons, intercalate_singleton, Spec.tcpEntry, Spec.tcpContext,
      Spec.tcpTimestamp, if_true, hy, String.append_assoc, String.append_empty]
    rfl

theorem tcp_payload_not_injective_witness :
    (sampleConstants.MAX_VALUES ≤ 255 ∧ 2 ≤ sampleConstants.MAX_VALUES ∧ 2 ≤ 2
        ∧ fmtMicro 2000000 = "2.000000")
      ∧ (buildTcpPayload sampleConstants fmtMicro 2
          (addAll sampleConstants freshTcp
            [{ variable_label := "a", dot_value := 1000000, dot_context := some "x",
               dot_timestamp_seconds := 0, dot_timestamp_millis := 0 },
             { variable_label := "b", dot_value := 2000000, dot_context := none,
               dot_timestamp_seconds := 0, dot_timestamp_millis := 0 }])
          "dev" "name").map Prod.fst
        = some "Particle/1.0|POST|tok|dev:name=>a:1.000000$x,b:2.000000|end"
      ∧ (buildTcpPayload sampleConstants fmtMicro 2
          (addAll sampleConstants freshTcp
            [{ variable_label := "a", dot_value := 1000000,
               dot_context := some "x,b:2.000000",
               dot_timestamp_seconds := 0, dot_timestamp_millis := 0 }])
          "dev" "name").map Prod.fst
        = some "Particle/1.0|POST|tok|dev:name=>a:1.000000$x,b:2.000000|end" :=
  ⟨⟨by decide, by decide, by decide, by decide⟩,
    (tcp_payload_not_injective sampleConstants fmtMicro "tok" IotProtocol.UBI_TCP
      (fun _ => blankDot) false false "dev" "name" 2 1000000 2000000 (by decide) (by decide)
      (by decide) (by decide)).2.2.trans (by decide),
    (tcp_payload_not_injective sampleConstants fmtMicro "tok" IotProtocol.UBI_TCP
      (fun _ => blankDot) false false "dev" "name" 2 1000000 2000000 (by decide) (by decide)
      (by decide) (by decide)).2.1.trans (by decide)⟩

end UbiProtocolHandler
